import Mathlib

/-!
Verification of the laptop-tools repository core: the resumable Dropbox
crawler with checkpointing (scripts/catalog-dropbox.py), the inventory
analysis (analyze_files), the duplicate resolver (scripts/smart-dedupe.py),
the deletion-plan file format, and the batch deleters
(scripts/batch-delete.py, scripts/batch-delete-fast.py).

Each Python function is shallowly embedded as an executable Lean definition;
external collaborators (the Dropbox API, the filesystem, datetime parsing)
are modelled as explicit parameters or small state models.
-/

namespace LaptopTools

/-! ## Duplicate resolver (scripts/smart-dedupe.py) -/

/-- One duplicate group from the catalog: a content hash paired with the list
of paths sharing that hash (one item of the duplicates map iterated at
smart-dedupe.py line 27). -/
structure DupGroup where
  hash : String
  paths : List String
deriving Repr, DecidableEq

/-- Code-point lexicographic order on strings, the order Python uses to sort
paths. Stated over the underlying character lists. -/
def strLt (a b : String) : Bool :=
  decide (a.data < b.data)

/-- Lexicographically smallest path, modelling the default keep preference
sorted(paths)[0] at smart-dedupe.py line 41. On the empty list (never reached
by the resolver, which skips groups with fewer than two paths) it returns the
empty string. -/
def sortedHead (paths : List String) : String :=
  match paths with
  | [] => ""
  | p :: ps => ps.foldl (fun a b => if strLt b a then b else a) p

/-- Effective kept path for a group: keep_preference(paths) when a preference
function was supplied, else the default sorted(paths)[0]
(smart-dedupe.py lines 37-41). -/
def chooseKeep (kp : Option (List String → String)) (paths : List String) : String :=
  match kp with
  | some f => f paths
  | none => sortedHead paths

/-- Python any(p.startswith(tf) for tf in target_folders)
(smart-dedupe.py lines 32 and 45). Note that on an empty target_folders list
this is False for every path. -/
def matchesTarget (target_folders : List String) (p : String) : Bool :=
  target_folders.any (fun tf => tf.isPrefixOf p)

/-- Deletion-plan contribution of one duplicate group, mirroring one
iteration of the loop at smart-dedupe.py lines 27-47: groups with fewer than
two paths are skipped (line 28), groups with no path under a target folder
are skipped (lines 32-34), and otherwise every path that differs from the
kept path and lies under a target folder is appended (lines 44-47). -/
def groupContrib (target_folders : List String) (kp : Option (List String → String))
    (g : DupGroup) : List String :=
  if g.paths.length < 2 then []
  else if g.paths.filter (fun p => matchesTarget target_folders p) = [] then []
  else
    let keep_path := chooseKeep kp g.paths
    g.paths.filter (fun p => p != keep_path && matchesTarget target_folders p)

/-- smart_dedupe (smart-dedupe.py lines 10-48): fold over the duplicates map
collecting every non-kept, target-matching path into the deletion plan
(to_delete). -/
def smart_dedupe (duplicates : List DupGroup) (target_folders : List String)
    (kp : Option (List String → String)) : List String :=
  duplicates.foldl (fun acc g => acc ++ groupContrib target_folders kp g) []

/-! ## Deletion-plan file round trip

The plan is written one path per line with a trailing newline
(smart-dedupe.py lines 143-145) and read back by stripping each line and
dropping blank lines (batch-delete.py lines 78-79, batch-delete-fast.py
lines 123-124). Strings are modelled as lists of characters so that the
line-splitting performed by Python file iteration is explicit. -/

/-- The Unicode whitespace set of Python str.isspace / str.strip: the ASCII
controls U+0009 to U+000D and U+001C to U+001F, the space, NEL U+0085,
NBSP U+00A0, OGHAM U+1680, the U+2000 to U+200A spaces, the line and
paragraph separators U+2028 and U+2029, U+202F, U+205F, and the ideographic
space U+3000. -/
def pyWhitespace (c : Char) : Bool :=
  let n := c.toNat
  (9 ≤ n && n ≤ 13) || (28 ≤ n && n ≤ 31) || n == 32 || n == 0x85 ||
    n == 0xA0 || n == 0x1680 || (0x2000 ≤ n && n ≤ 0x200A) || n == 0x2028 ||
    n == 0x2029 || n == 0x202F || n == 0x205F || n == 0x3000

/-- Python str.strip() with no argument: drop leading and trailing Unicode
whitespace. -/
def pyStrip (l : List Char) : List Char :=
  ((l.dropWhile pyWhitespace).reverse.dropWhile pyWhitespace).reverse

/-- File content produced by the writer loop: for each path, the path
followed by a newline (smart-dedupe.py lines 143-145, f.write(path + nl)). -/
def writePlan (paths : List (List Char)) : List Char :=
  (paths.map (fun p => p ++ ['\n'])).flatten

/-- Splitting a character list at every occurrence of a separator, keeping
empty segments — Python str.split(sep) semantics. With the newline
separator this models file-line iteration: a content ending in a newline
contributes a final empty segment, which the reader's blank-line filter
drops. -/
def splitChar (sep : Char) : List Char → List (List Char)
  | [] => [[]]
  | c :: cs =>
    if c = sep then [] :: splitChar sep cs
    else
      match splitChar sep cs with
      | [] => [[c]]
      | s :: ss => (c :: s) :: ss

/-- Universal-newline translation performed by Python text-mode reading:
a CR LF pair and a lone CR both become a single LF before the file is
iterated line by line. -/
def normalizeNewlines : List Char → List Char
  | [] => []
  | c :: cs =>
    if c = '\r' then
      match cs with
      | [] => ['\n']
      | c' :: cs' =>
        if c' = '\n' then '\n' :: normalizeNewlines cs'
        else '\n' :: normalizeNewlines (c' :: cs')
    else c :: normalizeNewlines cs

/-- Reading the plan file back (batch-delete.py line 79): text-mode line
iteration (universal newlines), each line stripped, blank lines dropped. -/
def readPlan (content : List Char) : List (List Char) :=
  ((splitChar '\n' (normalizeNewlines content)).map pyStrip).filter
    (fun l => !l.isEmpty)

/-! ## Crawler data model (scripts/catalog-dropbox.py) -/

/-- CHECKPOINT_INTERVAL (catalog-dropbox.py line 31): a checkpoint is saved
every 10000 files. -/
def CHECKPOINT_INTERVAL : Nat := 10000

/-- Extension of a bare file name per Python os.path.splitext(name)[1]: the
substring from the last dot, unless every character before that dot is a dot
(leading dots of a name such as .bashrc do not begin an extension). -/
def splitextExt (name : List Char) : List Char :=
  match name.reverse.findIdx? (fun c => c = '.') with
  | none => []
  | some j =>
    let i := name.length - 1 - j
    if i = 0 then []
    else if (name.take i).all (fun c => c = '.') then []
    else name.drop i

/-- Lower-cased extension of a file name, modelling
os.path.splitext(entry.name)[1].lower() at catalog-dropbox.py line 128. -/
def extensionOf (name : String) : String :=
  ⟨(splitextExt name.data).map Char.toLower⟩

/-- A file entry as returned by the Dropbox listing API. client_modified is
modelled directly as its isoformat string (or none when the field is
absent), since the crawler only ever stores that string. -/
structure ApiFile where
  path_display : String
  name : String
  size : Nat
  client_modified : Option String
  content_hash : Option String
deriving Repr, DecidableEq

/-- One entry of a listing page: either a FileMetadata or a FolderMetadata
record (the isinstance branching at catalog-dropbox.py lines 121 and 139). -/
inductive ApiEntry where
  | file (f : ApiFile)
  | folder (path_display name : String)
deriving Repr, DecidableEq

/-- The file_info dict built at catalog-dropbox.py lines 122-129. -/
structure FileInfo where
  path : String
  name : String
  size : Nat
  modified : Option String
  hash : Option String
  extension : String
deriving Repr, DecidableEq

/-- The folder dict built at catalog-dropbox.py lines 140-143. -/
structure FolderInfo where
  path : String
  name : String
deriving Repr, DecidableEq

/-- Conversion of an API file entry to its file_info record
(catalog-dropbox.py lines 122-129). -/
def mkFileInfo (f : ApiFile) : FileInfo :=
  ⟨f.path_display, f.name, f.size, f.client_modified, f.content_hash,
    extensionOf f.name⟩

/-- The checkpoint dict written by save_checkpoint (catalog-dropbox.py
lines 59-66): cursor, timestamp, the two counts, and the full accumulated
lists. Cursors are modelled as page indices: the cursor returned with page i
is i + 1, the index of the next page to fetch (the real cursor is an opaque
nonempty string with exactly that meaning). -/
structure Checkpoint where
  cursor : Nat
  timestamp : String
  files_count : Nat
  folders_count : Nat
  files : List FileInfo
  folders : List FolderInfo
deriving Repr, DecidableEq

/-- save_checkpoint's construction of the checkpoint dict: the counts are
always the lengths of the stored lists (lines 62-65). -/
def mkCheckpoint (cursor : Nat) (ts : String) (files : List FileInfo)
    (folders : List FolderInfo) : Checkpoint :=
  ⟨cursor, ts, files.length, folders.length, files, folders⟩

/-- Timestamp written into checkpoints; datetime.now() is an external
collaborator, modelled as a constant. -/
def nowTs : String := ""

/-! ### Checkpoint blob serialization (claim C2)

save_checkpoint opens the checkpoint file in mode w — truncating it — and
streams the JSON object with json.dump (lines 67-68). The blob is modelled
at field granularity: one token for the object opener, one per dict field in
insertion order, one for the closing brace. A crash during the write leaves
a strict prefix of this token stream on disk (the previous content having
been destroyed by the truncation); json.load fails on any strict prefix,
because the object is unterminated, and load_checkpoint catches that failure
and returns None (lines 75-81). -/

/-- Field-granularity serialization tokens of the checkpoint JSON object. -/
inductive CpTok where
  | objStart : CpTok
  | cursorField : Nat → CpTok
  | timestampField : String → CpTok
  | filesCountField : Nat → CpTok
  | foldersCountField : Nat → CpTok
  | filesField : List FileInfo → CpTok
  | foldersField : List FolderInfo → CpTok
  | objEnd : CpTok
deriving Repr, DecidableEq

/-- Serialized form of a checkpoint: json.dump writes the opener, the six
fields in dict insertion order (lines 59-66), and the closing brace. -/
def encodeCheckpoint (cp : Checkpoint) : List CpTok :=
  [.objStart, .cursorField cp.cursor, .timestampField cp.timestamp,
   .filesCountField cp.files_count, .foldersCountField cp.folders_count,
   .filesField cp.files, .foldersField cp.folders, .objEnd]

/-- json.load of a checkpoint blob: succeeds exactly on a complete
serialization; anything else (in particular any strict prefix left by a
crashed write) raises, which load_checkpoint turns into None. -/
def decodeCheckpoint : List CpTok → Option Checkpoint
  | [.objStart, .cursorField c, .timestampField t, .filesCountField fc,
     .foldersCountField dc, .filesField fs, .foldersField ds, .objEnd] =>
    some ⟨c, t, fc, dc, fs, ds⟩
  | _ => none

/-- Disk contents after save_checkpoint crashes having completed k write
steps: the file was truncated and holds the first k tokens of the new
blob. -/
def crashedSave (cp : Checkpoint) (k : Nat) : List CpTok :=
  (encodeCheckpoint cp).take k

/-- load_checkpoint (catalog-dropbox.py lines 72-82): parse the blob,
returning none when parsing fails. -/
def load_checkpoint (disk : List CpTok) : Option Checkpoint :=
  decodeCheckpoint disk

/-! ### The crawl loop (claims C1, C3, C10) -/

/-- One page returned by files_list_folder / files_list_folder_continue.
The page at index i carries cursor i + 1 and has_more is true exactly when
another page follows. -/
structure Page where
  entries : List ApiEntry
deriving Repr, DecidableEq

/-- In-memory accumulators of get_folder_stats together with the checkpoint
file contents (saved = none means no checkpoint file on disk). -/
structure CrawlSt where
  files : List FileInfo
  folders : List FolderInfo
  saved : Option Checkpoint
deriving Repr, DecidableEq

/-- Fresh-run initial state: empty accumulators, no checkpoint file
(lines 98-99 after a clear_checkpoint). -/
def initSt : CrawlSt := ⟨[], [], none⟩

/-- Processing of one entry by the for loop at catalog-dropbox.py
lines 120-143: a file entry is converted to its file_info record and
appended, and whenever the accumulated file count reaches a multiple of
CHECKPOINT_INTERVAL the checkpoint is saved with the current page's cursor
(the branch if result.cursor is always taken, a real cursor being a nonempty
string); a folder entry is appended to the folder list. -/
def procEntry (cursor : Nat) (s : CrawlSt) (e : ApiEntry) : CrawlSt :=
  match e with
  | .file f =>
    let files := s.files ++ [mkFileInfo f]
    if files.length % CHECKPOINT_INTERVAL == 0 then
      { files := files, folders := s.folders,
        saved := some (mkCheckpoint cursor nowTs files s.folders) }
    else
      { s with files := files }
  | .folder p n => { s with folders := s.folders ++ [FolderInfo.mk p n] }

/-- Processing of the whole page fetched at index i (its cursor is i + 1). -/
def procPage (i : Nat) (s : CrawlSt) (pg : Page) : CrawlSt :=
  pg.entries.foldl (procEntry (i + 1)) s

/-- The pages the while loop fetches when it starts (or resumes) at page
index start, paired with their indices. -/
def pagesFrom (pages : List Page) (start : Nat) : List (Nat × Page) :=
  ((List.range pages.length).zip pages).drop start

/-- The while loop of get_folder_stats (lines 119-149) run from page index
start to exhaustion of has_more. -/
def crawlFrom (pages : List Page) (start : Nat) (s : CrawlSt) : CrawlSt :=
  (pagesFrom pages start).foldl (fun s ip => procPage ip.1 s ip.2) s

/-- An error-free, uninterrupted fresh crawl: the accumulated lists
(the checkpoint is cleared on success, line 163). -/
def fullCrawl (pages : List Page) : List FileInfo × List FolderInfo :=
  let s := crawlFrom pages 0 initSt
  (s.files, s.folders)

/-- The crawl's entry stream: every entry of every page in order, paired
with the cursor of the page it belongs to. -/
def entryStream (pages : List Page) : List (Nat × ApiEntry) :=
  ((List.range pages.length).zip pages).flatMap
    (fun ip => ip.2.entries.map (fun e => (ip.1 + 1, e)))

/-- Checkpoint file contents after the crawl is killed having absorbed
exactly the first k entries of the stream: the last periodic save, if any. -/
def interruptedDisk (pages : List Page) (k : Nat) : Option Checkpoint :=
  (((entryStream pages).take k).foldl (fun s ce => procEntry ce.1 s ce.2) initSt).saved

/-- Resuming a crawl (main lines 486-499 and get_folder_stats
lines 106-117): with no checkpoint on disk the crawl starts fresh; with a
checkpoint the accumulators are restored from it and fetching continues with
files_list_folder_continue on the stored cursor. -/
def resumeCrawl (pages : List Page) (cp : Option Checkpoint) :
    List FileInfo × List FolderInfo :=
  match cp with
  | none => fullCrawl pages
  | some cp =>
    let s := crawlFrom pages cp.cursor ⟨cp.files, cp.folders, some cp⟩
    (s.files, s.folders)

/-- Accumulator state after the first n pages have been fully absorbed. -/
def absorbedSt (pages : List Page) (n : Nat) : CrawlSt :=
  ((pagesFrom pages 0).take n).foldl (fun s ip => procPage ip.1 s ip.2) initSt

/-- get_folder_stats when the fetch of page index errAt raises (the initial
files_list_folder call when errAt = 0, the files_list_folder_continue call
for page errAt otherwise): pages before errAt are fully absorbed, then the
except branch at lines 151-157 saves a final checkpoint with the cursor of
the last fetched page — but only if at least one fetch succeeded (result is
not None) — and returns ([], []). When errAt is not a valid page index no
fetch fails: the crawl completes normally and clears the checkpoint file.
Result: the returned pair and the checkpoint file contents. -/
def crawlWithFetchError (pages : List Page) (errAt : Nat) :
    (List FileInfo × List FolderInfo) × Option Checkpoint :=
  if errAt < pages.length then
    (([], []),
      if errAt = 0 then (absorbedSt pages errAt).saved
      else some (mkCheckpoint errAt nowTs (absorbedSt pages errAt).files
        (absorbedSt pages errAt).folders))
  else
    ((( crawlFrom pages 0 initSt).files, (crawlFrom pages 0 initSt).folders), none)

/-- main lines 515-521: an empty files list together with an empty folders
list is treated as a failed scan and main returns exit code 1; otherwise
main proceeds to analysis (modelled as exit code 0). -/
def scanExitCode (r : List FileInfo × List FolderInfo) : Nat :=
  if r.1.isEmpty && r.2.isEmpty then 1 else 0

/-- The single file entry used in concrete crawl scenarios. -/
def afA : ApiFile := ⟨"/a", "a", 1, none, none⟩

/-- Its file_info record. -/
def fiA : FileInfo := mkFileInfo afA

/-- A page holding 10001 file entries: one more than the checkpoint
interval, so the periodic checkpoint fires one entry before the page ends. -/
def bigPage : Page := ⟨List.replicate 10001 (ApiEntry.file afA)⟩

/-! ## Inventory analysis (analyze_files, catalog-dropbox.py lines 168-250)

The per-file loop builds the defaultdict summaries; defaultdicts are
modelled as total functions with default (0, 0) (or the empty list). The
datetime collaborator is the parameter ageDays, modelling
(now - datetime.fromisoformat(s.replace(Z-suffix, utc-offset))).days; it
returns none exactly when fromisoformat raises ValueError on a malformed
string, and that exception propagates out of analyze_files, modelled as
Except.error. The post-loop presentation steps (top-100 sorting, the
duplicates size filter, float GB rounding) are display-only and not
modelled. -/

/-- Extension key: the Python expression file.extension or the no-extension
sentinel (line 188); the empty string is falsy. -/
def extKey (f : FileInfo) : String :=
  if f.extension = "" then "(no extension)" else f.extension

/-- Top-level folder of a path (line 193): the slash plus the second
component of path.split(slash) when it exists, else the bare slash. -/
def topFolder (path : String) : String :=
  match splitChar '/' path.data with
  | _ :: second :: _ => "/" ++ String.mk second
  | _ => "/"

/-- Age bucket label from the age in days (lines 202-213). -/
def ageBucket (d : Int) : String :=
  if d < 30 then "Last 30 days"
  else if d < 90 then "30-90 days"
  else if d < 365 then "3-12 months"
  else if d < 365 * 2 then "1-2 years"
  else if d < 365 * 3 then "2-3 years"
  else "3+ years"

/-- The analysis record accumulated by the loop. -/
structure Analysis where
  total_files : Nat
  total_size : Nat
  by_extension : String → Nat × Nat
  by_age : String → Nat × Nat
  by_folder : String → Nat × Nat
  duplicates : String → List String
  old_files : List (String × Nat × Int)

/-- Defaultdict update: add one file of the given size under the key. -/
def bump (m : String → Nat × Nat) (key : String) (size : Nat) :
    String → Nat × Nat :=
  fun k => if key == k then ((m k).1 + 1, (m k).2 + size) else m k

/-- The duplicates update (lines 226-227): a file with a truthy content hash
appends its path to the hash's group. -/
def dupStep (a : Analysis) (f : FileInfo) : Analysis :=
  match f.hash with
  | none => a
  | some h =>
    if h = "" then a
    else { a with duplicates :=
      fun k => if h == k then a.duplicates k ++ [f.path] else a.duplicates k }

/-- The age part of the loop body (lines 198-223): a file with a falsy
modified field is skipped; otherwise the timestamp is parsed — a parse
failure raises (error) — the age bucket is bumped, and a 3+ years file over
one MiB is recorded in old_files (path, size in bytes, age in days; the
rounded MB/years floats of the code are display-only). -/
def ageStep (ageDays : String → Option Int) (a : Analysis) (f : FileInfo) :
    Except Unit Analysis :=
  match f.modified with
  | none => Except.ok a
  | some s =>
    if s = "" then Except.ok a
    else
      match ageDays s with
      | none => Except.error ()
      | some d =>
        let a1 := { a with by_age := bump a.by_age (ageBucket d) f.size }
        if 365 * 3 ≤ d then
          if 1024 * 1024 < f.size then
            Except.ok { a1 with old_files := a1.old_files ++ [(f.path, f.size, d)] }
          else Except.ok a1
        else Except.ok a1

/-- One iteration of the analysis loop (lines 186-227): extension and folder
totals, then age (which can raise), then duplicates. -/
def analyzeStep (ageDays : String → Option Int) (a : Analysis) (f : FileInfo) :
    Except Unit Analysis :=
  let a1 := { a with
    by_extension := bump a.by_extension (extKey f) f.size,
    by_folder := bump a.by_folder (topFolder f.path) f.size }
  match ageStep ageDays a1 f with
  | Except.error e => Except.error e
  | Except.ok a2 => Except.ok (dupStep a2 f)

/-- analyze_files (lines 168-250): the totals are precomputed (lines
173-174), then every file runs through the loop; an unhandled parse error
aborts the whole analysis. -/
def analyze_files (ageDays : String → Option Int) (files : List FileInfo) :
    Except Unit Analysis :=
  files.foldlM (analyzeStep ageDays)
    { total_files := files.length,
      total_size := files.foldl (fun t f => t + f.size) 0,
      by_extension := fun _ => (0, 0),
      by_age := fun _ => (0, 0),
      by_folder := fun _ => (0, 0),
      duplicates := fun _ => [],
      old_files := [] }

/-- A file's timestamp is unproblematic for the analysis: absent, empty, or
parseable. -/
def tsOk (ageDays : String → Option Int) (f : FileInfo) : Bool :=
  match f.modified with
  | none => true
  | some s => if s = "" then true else (ageDays s).isSome

/-- The age bucket a file lands in, if any: files with absent or empty
timestamps land in no bucket. -/
def ageKey (ageDays : String → Option Int) (f : FileInfo) : Option String :=
  match f.modified with
  | none => none
  | some s => if s = "" then none else (ageDays s).map ageBucket

/-! ## Batch deleters (scripts/batch-delete.py, scripts/batch-delete-fast.py) -/

/-- Does a character list start with the given first list? -/
def listStartsWith : List Char → List Char → Bool
  | [], _ => true
  | _ :: _, [] => false
  | a :: as, b :: bs => a == b && listStartsWith as bs

/-- Python substring containment: needle in hay. -/
def containsSub (needle : List Char) : List Char → Bool
  | [] => needle.isEmpty
  | c :: cs => listStartsWith needle (c :: cs) || containsSub needle cs

/-- The not_found test applied to an error's text
(batch-delete.py line 56, batch-delete-fast.py line 108). -/
def isNotFoundIn (e : String) : Bool :=
  containsSub "not_found".data e.data

/-- Python str.lower(), used by batch-delete-fast.py line 108. -/
def pyLower (s : String) : String :=
  ⟨s.data.map Char.toLower⟩

/-- The chunks the range-based loops submit: slices paths[i : i + bs] for
i = 0, bs, 2bs, ... (batch-delete-fast.py lines 45-48). -/
def chunksOf (paths : List String) (bs : Nat) : List (List String) :=
  (List.range ((paths.length + bs - 1) / bs)).map
    (fun j => (paths.drop (j * bs)).take bs)

/-- The per-path body of the batch_delete loop (batch-delete.py lines
49-61): ok means files_delete_v2 succeeded; error e means it raised ApiError
with text e, which counts as deleted when the text contains not_found and as
failed otherwise. The pair is (deleted, failed). -/
def delStep (outcome : String → Except String Unit) (df : Nat × Nat)
    (p : String) : Nat × Nat :=
  match outcome p with
  | Except.ok _ => (df.1 + 1, df.2)
  | Except.error e =>
    if isNotFoundIn e then (df.1 + 1, df.2) else (df.1, df.2 + 1)

/-- batch_delete (batch-delete.py lines 38-68) with per-path outcomes
supplied by the oracle: the chunked loop runs delStep over every path of
every chunk in order. Result: (deleted, failed). -/
def batch_delete (outcome : String → Except String Unit) (paths : List String)
    (bs : Nat) : Nat × Nat :=
  (chunksOf paths bs).foldl
    (fun df batch => batch.foldl (delStep outcome) df) (0, 0)

/-- Per-item outcome inside a completed delete batch. -/
inductive DelEntry where
  | success : DelEntry
  | failure : String → DelEntry
deriving Repr, DecidableEq

/-- The per-entry body of process_batch_result (batch-delete-fast.py lines
103-112): a success counts, a failure whose lower-cased reason contains
not_found counts (already deleted), any other failure is logged only. -/
def pbrStep (deleted : Nat) (e : DelEntry) : Nat :=
  match e with
  | DelEntry.success => deleted + 1
  | DelEntry.failure r =>
    if isNotFoundIn (pyLower r) then deleted + 1 else deleted

/-- process_batch_result (batch-delete-fast.py lines 100-113). -/
def process_batch_result (entries : List DelEntry) : Nat :=
  entries.foldl pbrStep 0

/-- Submission outcome of one chunk, decided by the external API: an
ApiError raised by files_delete_batch, a completed batch (immediately
complete or an async job whose polling eventually reports complete — both
feed process_batch_result), or an async job whose polling reports failed.
The 1-second polling waits are internal to the collaborator. -/
inductive SubmitRes where
  | apiError : SubmitRes
  | completed : List DelEntry → SubmitRes
  | asyncFailed : SubmitRes
deriving Repr

/-- One chunk's report: the submitted slice, its outcome, and the wait
performed after the chunk — 5 seconds after an ApiError (line 94), 2
seconds between successful chunks (lines 87-88), none after the last. -/
structure ChunkReport where
  batch : List String
  res : SubmitRes
  sleptAfter : Option Nat

/-- Accumulated state of the batch_delete_fast loop. -/
structure FastState where
  deleted : Nat
  failed : Nat
  reports : List ChunkReport

/-- One iteration of the chunk loop of batch_delete_fast (lines 47-94). -/
def stepChunk (submit : Nat → List String → SubmitRes) (paths : List String)
    (bs : Nat) (numBatches : Nat) (st : FastState) (j : Nat) : FastState :=
  let batch := (paths.drop (j * bs)).take bs
  match submit j batch with
  | SubmitRes.apiError =>
    { deleted := st.deleted, failed := st.failed + batch.length,
      reports := st.reports ++ [⟨batch, SubmitRes.apiError, some 5⟩] }
  | SubmitRes.completed es =>
    { deleted := st.deleted + process_batch_result es, failed := st.failed,
      reports := st.reports ++ [⟨batch, SubmitRes.completed es,
        if j + 1 < numBatches then some 2 else none⟩] }
  | SubmitRes.asyncFailed =>
    { deleted := st.deleted, failed := st.failed + batch.length,
      reports := st.reports ++ [⟨batch, SubmitRes.asyncFailed,
        if j + 1 < numBatches then some 2 else none⟩] }

/-- batch_delete_fast (batch-delete-fast.py lines 39-98): iterate the chunk
indices, submitting every chunk whatever happened to earlier ones. -/
def batch_delete_fast (submit : Nat → List String → SubmitRes)
    (paths : List String) (bs : Nat) : FastState :=
  (List.range ((paths.length + bs - 1) / bs)).foldl
    (stepChunk submit paths bs ((paths.length + bs - 1) / bs)) ⟨0, 0, []⟩

/-- The failed-count contribution of chunk j: its length on a submission
error or a failed async job, zero on a completed batch. -/
def chunkFailed (submit : Nat → List String → SubmitRes) (paths : List String)
    (bs : Nat) (j : Nat) : Nat :=
  match submit j ((paths.drop (j * bs)).take bs) with
  | SubmitRes.apiError => ((paths.drop (j * bs)).take bs).length
  | SubmitRes.asyncFailed => ((paths.drop (j * bs)).take bs).length
  | SubmitRes.completed _ => 0

/-- The deleted-count contribution of chunk j. -/
def chunkDeleted (submit : Nat → List String → SubmitRes) (paths : List String)
    (bs : Nat) (j : Nat) : Nat :=
  match submit j ((paths.drop (j * bs)).take bs) with
  | SubmitRes.completed es => process_batch_result es
  | _ => 0

/-- The report batch_delete_fast produces for chunk j. -/
def reportOf (submit : Nat → List String → SubmitRes) (paths : List String)
    (bs : Nat) (numBatches : Nat) (j : Nat) : ChunkReport :=
  match submit j ((paths.drop (j * bs)).take bs) with
  | SubmitRes.apiError =>
    ⟨(paths.drop (j * bs)).take bs, SubmitRes.apiError, some 5⟩
  | SubmitRes.completed es =>
    ⟨(paths.drop (j * bs)).take bs, SubmitRes.completed es,
      if j + 1 < numBatches then some 2 else none⟩
  | SubmitRes.asyncFailed =>
    ⟨(paths.drop (j * bs)).take bs, SubmitRes.asyncFailed,
      if j + 1 < numBatches then some 2 else none⟩

/-- A per-path outcome that reports the target as already absent. -/
def pathAbsent (r : Except String Unit) : Bool :=
  match r with
  | Except.error e => isNotFoundIn e
  | Except.ok _ => false

/-- A per-item outcome reporting the target as already absent. -/
def entryAbsent (en : DelEntry) : Bool :=
  match en with
  | DelEntry.failure r => isNotFoundIn (pyLower r)
  | DelEntry.success => false

/-- A chunk submission outcome consisting solely of already-absent
failures, one per submitted path. -/
def chunkAllAbsent (r : SubmitRes) (n : Nat) : Bool :=
  match r with
  | SubmitRes.completed es => es.length == n && es.all entryAbsent
  | _ => false

/-! ## Theorems -/

/-- Folding append over a list starting from an accumulator is the
accumulator followed by the flattened mapped list. -/
theorem foldl_append_eq_flatten {α β : Type} (f : β → List α) (l : List β) (acc : List α) :
    l.foldl (fun a g => a ++ f g) acc = acc ++ (l.map f).flatten := by
  induction l generalizing acc with
  | nil => simp
  | cons g gs ih => simp [List.foldl_cons, ih, List.append_assoc]

/-- The resolver's plan is the concatenation of the per-group
contributions. -/
theorem smart_dedupe_eq_flatten (duplicates : List DupGroup)
    (target_folders : List String) (kp : Option (List String → String)) :
    smart_dedupe duplicates target_folders kp
      = (duplicates.map (groupContrib target_folders kp)).flatten := by
  simpa using foldl_append_eq_flatten (groupContrib target_folders kp) duplicates []

/-- Every per-group contribution is a sublist of the group's paths. -/
theorem groupContrib_sublist (target_folders : List String)
    (kp : Option (List String → String)) (g : DupGroup) :
    (groupContrib target_folders kp g).Sublist g.paths := by
  unfold groupContrib
  split
  · exact List.nil_sublist _
  · split
    · exact List.nil_sublist _
    · exact List.filter_sublist _

/-- Every path in a per-group contribution differs from the group's kept
path and matches a target folder. -/
theorem groupContrib_mem (target_folders : List String)
    (kp : Option (List String → String)) (g : DupGroup) (p : String)
    (hp : p ∈ groupContrib target_folders kp g) :
    p ≠ chooseKeep kp g.paths ∧ matchesTarget target_folders p = true := by
  unfold groupContrib at hp
  split at hp
  · simp at hp
  · split at hp
    · simp at hp
    · have := List.of_mem_filter hp
      simp only [Bool.and_eq_true, bne_iff_ne, ne_eq] at this
      exact ⟨this.1, this.2⟩

/-- Folding the binary minimum over a list starting from a stays within
a :: the list. -/
theorem foldl_min_mem (ps : List String) (a : String) :
    ps.foldl (fun a b => if strLt b a then b else a) a ∈ a :: ps := by
  induction ps generalizing a with
  | nil => simp
  | cons b bs ih =>
    simp only [List.foldl_cons]
    rcases List.mem_cons.mp (ih (if strLt b a then b else a)) with h | h
    · rw [h]
      split
      · exact List.mem_cons_of_mem _ (List.mem_cons_self _ _)
      · exact List.mem_cons_self _ _
    · exact List.mem_cons_of_mem _ (List.mem_cons_of_mem _ h)

/-- The default kept path sorted(paths)[0] is a member of the group. -/
theorem sortedHead_mem (paths : List String) (h : paths ≠ []) :
    sortedHead paths ∈ paths := by
  match paths with
  | [] => exact absurd rfl h
  | p :: ps => exact foldl_min_mem ps p

/-- Every element of the flattened per-group contributions is an element of
the flattened group path lists. -/
theorem mem_flatten_contrib (duplicates : List DupGroup) (target_folders : List String)
    (kp : Option (List String → String)) (x : String)
    (hx : x ∈ (duplicates.map (groupContrib target_folders kp)).flatten) :
    x ∈ (duplicates.map DupGroup.paths).flatten := by
  rw [List.mem_flatten] at hx ⊢
  obtain ⟨l, hl, hxl⟩ := hx
  obtain ⟨g, hg, rfl⟩ := List.mem_map.mp hl
  exact ⟨g.paths, List.mem_map_of_mem _ hg,
    (groupContrib_sublist target_folders kp g).subset hxl⟩

/-- C5: plan exclusivity. When every path occurs in at most one duplicate
group (the concatenation of all group path lists has no duplicate) and the
keep policy always selects a member of the group it is applied to, the
resolver's deletion plan contains no path twice, never contains the kept
path chosen for a group, and only contains paths matching a target folder. -/
theorem C5_plan_exclusivity (duplicates : List DupGroup) (target_folders : List String)
    (kp : Option (List String → String))
    (hnodup : ((duplicates.map DupGroup.paths).flatten).Nodup)
    (hkeep : ∀ ps : List String, ps ≠ [] → chooseKeep kp ps ∈ ps) :
    (smart_dedupe duplicates target_folders kp).Nodup ∧
    (∀ g ∈ duplicates, g.paths ≠ [] →
      chooseKeep kp g.paths ∉ smart_dedupe duplicates target_folders kp) ∧
    (∀ p ∈ smart_dedupe duplicates target_folders kp,
      matchesTarget target_folders p = true) := by
  rw [smart_dedupe_eq_flatten]
  obtain ⟨hA, hB⟩ := List.nodup_flatten.mp hnodup
  refine ⟨?_, ?_, ?_⟩
  · rw [List.nodup_flatten]
    constructor
    · intro l hl
      obtain ⟨g, hg, rfl⟩ := List.mem_map.mp hl
      exact (groupContrib_sublist target_folders kp g).nodup
        (hA _ (List.mem_map_of_mem _ hg))
    · rw [List.pairwise_map] at hB ⊢
      refine hB.imp ?_
      intro a b hab x hxa hxb
      exact hab ((groupContrib_sublist target_folders kp a).subset hxa)
        ((groupContrib_sublist target_folders kp b).subset hxb)
  · rw [List.pairwise_map] at hB
    clear hnodup
    induction duplicates with
    | nil => intro g hg; simp at hg
    | cons d ds ih =>
      intro g hg hgne
      simp only [List.map_cons, List.flatten_cons, List.mem_append]
      have hAd : ∀ l ∈ ds.map DupGroup.paths, l.Nodup := by
        intro l hl
        refine hA l ?_
        rw [List.map_cons]
        exact List.mem_cons_of_mem _ hl
      have hdisj : ∀ x ∈ d.paths, x ∉ (ds.map DupGroup.paths).flatten := by
        intro x hx hx'
        rw [List.mem_flatten] at hx'
        obtain ⟨l, hl, hxl⟩ := hx'
        obtain ⟨g', hg', rfl⟩ := List.mem_map.mp hl
        exact (List.pairwise_cons.mp hB).1 g' hg' hx hxl
      rcases List.mem_cons.mp hg with rfl | hg'
      · push_neg
        constructor
        · intro hmem
          exact (groupContrib_mem target_folders kp g _ hmem).1 rfl
        · intro hmem
          exact hdisj _ (hkeep g.paths hgne)
            (mem_flatten_contrib ds target_folders kp _ hmem)
      · push_neg
        constructor
        · intro hmem
          have hkg : chooseKeep kp g.paths ∈ g.paths := hkeep g.paths hgne
          have : chooseKeep kp g.paths ∈ (ds.map DupGroup.paths).flatten := by
            rw [List.mem_flatten]
            exact ⟨g.paths, List.mem_map_of_mem _ hg', hkg⟩
          exact hdisj _ ((groupContrib_sublist target_folders kp d).subset hmem) this
        · exact ih hAd (List.pairwise_cons.mp hB).2 g hg' hgne
  · intro p hp
    rw [List.mem_flatten] at hp
    obtain ⟨l, hl, hpl⟩ := hp
    obtain ⟨g, hg, rfl⟩ := List.mem_map.mp hl
    exact (groupContrib_mem target_folders kp g p hpl).2

/-- C5 witness: the exclusivity properties hold on a concrete pair of
disjoint duplicate groups with the default keep policy. -/
theorem C5_plan_exclusivity_witness :
    (([⟨"h1", ["/a", "/b"]⟩, ⟨"h2", ["/c", "/d"]⟩] : List DupGroup).map
        DupGroup.paths).flatten.Nodup ∧
    ((smart_dedupe [⟨"h1", ["/a", "/b"]⟩, ⟨"h2", ["/c", "/d"]⟩] ["/"] none).Nodup ∧
    (∀ g ∈ ([⟨"h1", ["/a", "/b"]⟩, ⟨"h2", ["/c", "/d"]⟩] : List DupGroup), g.paths ≠ [] →
      chooseKeep none g.paths ∉ smart_dedupe [⟨"h1", ["/a", "/b"]⟩, ⟨"h2", ["/c", "/d"]⟩] ["/"] none) ∧
    (∀ p ∈ smart_dedupe [⟨"h1", ["/a", "/b"]⟩, ⟨"h2", ["/c", "/d"]⟩] ["/"] none,
      matchesTarget ["/"] p = true)) :=
  ⟨by decide,
    C5_plan_exclusivity [⟨"h1", ["/a", "/b"]⟩, ⟨"h2", ["/c", "/d"]⟩] ["/"] none
      (by decide)
      (fun ps h => sortedHead_mem ps h)⟩

/-- C6 counterexample: with an empty set of target path prefixes the resolver
returns the empty plan, so the non-kept member of a two-path duplicate group
is not added, contradicting the claim that an empty prefix set means no
restriction. -/
theorem C6_empty_prefixes_counterexample :
    chooseKeep none ["/a", "/b"] = "/a" ∧
      "/b" ∉ smart_dedupe [⟨"h1", ["/a", "/b"]⟩] [] none := by
  constructor
  · decide
  · simp [smart_dedupe, groupContrib, matchesTarget]

/-- C6 (amended): for the resolver invoked with an empty set of target path
prefixes no path matches, so every duplicate group is skipped and the
deletion plan is empty. -/
theorem C6_empty_prefixes_empty_plan (duplicates : List DupGroup)
    (kp : Option (List String → String)) :
    smart_dedupe duplicates [] kp = [] := by
  rw [smart_dedupe_eq_flatten]
  rw [List.flatten_eq_nil_iff]
  intro l hl
  rw [List.mem_map] at hl
  obtain ⟨g, _, rfl⟩ := hl
  unfold groupContrib
  split
  · rfl
  · split
    · rfl
    · simp [matchesTarget]

/-- Splitting a separator-terminated segment off the front of the content,
provided the segment itself does not contain the separator. -/
theorem splitChar_append (sep : Char) (p rest : List Char) (hp : sep ∉ p) :
    splitChar sep (p ++ sep :: rest) = p :: splitChar sep rest := by
  induction p with
  | nil => simp [splitChar]
  | cons c cs ih =>
    have hc : c ≠ sep := fun h => hp (h ▸ List.mem_cons_self _ _)
    have hcs : sep ∉ cs := fun h => hp (List.mem_cons_of_mem _ h)
    simp only [List.cons_append, splitChar, if_neg hc]
    have hrw : cs.append (sep :: rest) = cs ++ sep :: rest := rfl
    rw [hrw, ih hcs]

/-- C7 counterexample: a path with a trailing space does not survive the
write/read round trip, because the reader strips every line; reading back
yields the path without its trailing space. -/
theorem C7_roundtrip_counterexample :
    readPlan (writePlan [['/', 'a', ' ']]) = [['/', 'a']] ∧
      readPlan (writePlan [['/', 'a', ' ']]) ≠ [['/', 'a', ' ']] := by
  decide

/-- A character other than CR passes unchanged through the universal-newline
translation. -/
theorem normalizeNewlines_cons_ne (c : Char) (l : List Char) (hc : c ≠ '\r') :
    normalizeNewlines (c :: l) = c :: normalizeNewlines l := by
  unfold normalizeNewlines
  rw [if_neg hc, ← normalizeNewlines.eq_def]

/-- The universal-newline translation passes over a CR-free segment. -/
theorem normalizeNewlines_append (p rest : List Char) (hp : '\r' ∉ p) :
    normalizeNewlines (p ++ rest) = p ++ normalizeNewlines rest := by
  induction p with
  | nil => rfl
  | cons c cs ih =>
    have hc : c ≠ '\r' := fun h => hp (h ▸ List.mem_cons_self _ _)
    have hcs : '\r' ∉ cs := fun h => hp (List.mem_cons_of_mem _ h)
    rw [List.cons_append, normalizeNewlines_cons_ne c _ hc, ih hcs,
      List.cons_append]

/-- C7 (amended): writing N paths one per line and reading them back yields
the same N paths in the same order, for paths that are nonempty, contain
neither LF nor CR (text-mode reading breaks lines at both), and carry no
leading or trailing Unicode whitespace (the reader strips each line with
Python str.strip and drops blank lines, so such paths would be altered or
lost). Interior spaces and arbitrary non-whitespace unicode characters are
preserved. -/
theorem C7_roundtrip (paths : List (List Char))
    (h : ∀ p ∈ paths, p ≠ [] ∧ pyStrip p = p ∧ '\n' ∉ p ∧ '\r' ∉ p) :
    readPlan (writePlan paths) = paths := by
  induction paths with
  | nil => decide
  | cons p ps ih =>
    obtain ⟨hne, hstrip, hnl, hcr⟩ := h p (List.mem_cons_self _ _)
    have hrest : ∀ q ∈ ps, q ≠ [] ∧ pyStrip q = q ∧ '\n' ∉ q ∧ '\r' ∉ q :=
      fun q hq => h q (List.mem_cons_of_mem _ hq)
    have hw : writePlan (p :: ps) = p ++ '\n' :: writePlan ps := by
      simp [writePlan, List.append_assoc]
    have hnorm : normalizeNewlines (p ++ '\n' :: writePlan ps)
        = p ++ '\n' :: normalizeNewlines (writePlan ps) := by
      rw [normalizeNewlines_append p ('\n' :: writePlan ps) hcr,
        normalizeNewlines_cons_ne '\n' (writePlan ps) (by decide)]
    rw [readPlan, hw, hnorm,
      splitChar_append '\n' p (normalizeNewlines (writePlan ps)) hnl]
    rw [List.map_cons, hstrip, List.filter_cons]
    have : (!p.isEmpty) = true := by
      cases p with
      | nil => exact absurd rfl hne
      | cons a as => rfl
    rw [if_pos this]
    have := ih hrest
    rw [readPlan] at this
    rw [this]

/-- C7 witness: a concrete plan with interior spaces and a unicode character
round-trips exactly. -/
theorem C7_roundtrip_witness :
    (∀ p ∈ [['/', 'a', ' ', 'b'], ['/', 'c', 'é']],
      p ≠ [] ∧ pyStrip p = p ∧ '\n' ∉ p ∧ '\r' ∉ p) ∧
      readPlan (writePlan [['/', 'a', ' ', 'b'], ['/', 'c', 'é']])
        = [['/', 'a', ' ', 'b'], ['/', 'c', 'é']] :=
  ⟨by decide, C7_roundtrip [['/', 'a', ' ', 'b'], ['/', 'c', 'é']] (by decide)⟩

/-- C2 counterexample: with a previous checkpoint on disk, a crash after
three write steps of a new checkpoint save leaves a blob that loads as
None — neither the complete previous checkpoint nor the complete new one.
The write truncates in place (open mode w), so the previous checkpoint is
destroyed, falsifying the claim that a load yields one of the two. -/
theorem C2_atomicity_counterexample :
    load_checkpoint (crashedSave (mkCheckpoint 2 "t1" [fiA] []) 3) = none ∧
    load_checkpoint (crashedSave (mkCheckpoint 2 "t1" [fiA] []) 3)
      ≠ some (mkCheckpoint 1 "t0" [] []) ∧
    load_checkpoint (crashedSave (mkCheckpoint 2 "t1" [fiA] []) 3)
      ≠ some (mkCheckpoint 2 "t1" [fiA] []) := by
  refine ⟨rfl, ?_, ?_⟩ <;> intro h <;> exact Option.noConfusion h

/-- C2 (amended): the checkpoint write is not atomic — save_checkpoint
truncates the file and rewrites it in place — so a crash mid-write leaves a
partial blob and the previous checkpoint is lost. What does survive of the
claim: a load can only yield a complete checkpoint or nothing (a crash after
k of the 8 write steps loads as None; a completed write loads back exactly
the saved checkpoint), and a checkpoint built by save_checkpoint always has
counts equal to the lengths of its stored lists, so no load ever yields a
checkpoint whose cursor is inconsistent with its stored entry count. -/
theorem C2_crashed_save_loads_none_or_complete (cp : Checkpoint) (k : Nat)
    (cursor : Nat) (ts : String) (files : List FileInfo)
    (folders : List FolderInfo) :
    (load_checkpoint (crashedSave cp k)
      = if (encodeCheckpoint cp).length ≤ k then some cp else none) ∧
    (mkCheckpoint cursor ts files folders).files_count = files.length ∧
    (mkCheckpoint cursor ts files folders).folders_count = folders.length := by
  refine ⟨?_, rfl, rfl⟩
  match k with
  | 0 => rfl
  | 1 => rfl
  | 2 => rfl
  | 3 => rfl
  | 4 => rfl
  | 5 => rfl
  | 6 => rfl
  | 7 => rfl
  | n + 8 =>
    have h8 : (encodeCheckpoint cp).length ≤ n + 8 := by
      simp only [encodeCheckpoint, List.length_cons, List.length_nil]
      omega
    rw [if_pos h8]
    show decodeCheckpoint ((encodeCheckpoint cp).take (n + 8)) = some cp
    rw [List.take_of_length_le h8]
    rfl

/-- C3 counterexample: a fresh run whose very first fetch fails leaves no
checkpoint at all — result is still None, so the except branch at
catalog-dropbox.py line 154 skips the save, contradicting the claim that a
failing crawl always leaves a resumable checkpoint. -/
theorem C3_first_fetch_failure_no_checkpoint :
    (crawlWithFetchError [⟨[ApiEntry.file afA]⟩] 0).2 = none := by
  rfl

/-- C3 (amended): when the fetch error propagates after at least one
successful fetch, the crawler persists a final checkpoint containing the
last known-good cursor (that of the first unfetched page) and the full
accumulated entry and folder lists before returning; a run whose very first
fetch fails writes no checkpoint, since there is no cursor to store. -/
theorem C3_error_checkpoint (pages : List Page) (errAt : Nat)
    (h1 : 1 ≤ errAt) (h2 : errAt < pages.length) :
    (crawlWithFetchError pages errAt).2
      = some (mkCheckpoint errAt nowTs (absorbedSt pages errAt).files
          (absorbedSt pages errAt).folders) ∧
    (crawlWithFetchError pages errAt).1 = ([], []) := by
  have hne : ¬ errAt = 0 := by omega
  rw [crawlWithFetchError, if_pos h2, if_neg hne]
  exact ⟨rfl, rfl⟩

/-- C3 witness: a two-page store whose second fetch fails persists the
checkpoint with cursor 1 and the first page's accumulated lists. -/
theorem C3_error_checkpoint_witness :
    (1 ≤ 1 ∧ 1 < ([⟨[ApiEntry.file afA]⟩, ⟨[ApiEntry.file afA]⟩] : List Page).length) ∧
    ((crawlWithFetchError [⟨[ApiEntry.file afA]⟩, ⟨[ApiEntry.file afA]⟩] 1).2
      = some (mkCheckpoint 1 nowTs
          (absorbedSt [⟨[ApiEntry.file afA]⟩, ⟨[ApiEntry.file afA]⟩] 1).files
          (absorbedSt [⟨[ApiEntry.file afA]⟩, ⟨[ApiEntry.file afA]⟩] 1).folders) ∧
    (crawlWithFetchError [⟨[ApiEntry.file afA]⟩, ⟨[ApiEntry.file afA]⟩] 1).1 = ([], [])) :=
  ⟨⟨by decide, by decide⟩,
    C3_error_checkpoint [⟨[ApiEntry.file afA]⟩, ⟨[ApiEntry.file afA]⟩] 1
      (by decide) (by decide)⟩

/-- C10: any fetch error makes get_folder_stats return the pair of empty
lists, whatever was accumulated; main treats that pair as a failed scan and
exits with code 1; and the pair is identical to the result of a successful
crawl of an empty store, so the two are indistinguishable at the
return-value level. -/
theorem C10_error_returns_empty_pair (pages : List Page) (errAt : Nat)
    (h : errAt < pages.length) :
    (crawlWithFetchError pages errAt).1 = ([], []) ∧
    scanExitCode (crawlWithFetchError pages errAt).1 = 1 ∧
    (crawlWithFetchError pages errAt).1 = fullCrawl [] := by
  have h1 : (crawlWithFetchError pages errAt).1 = ([], []) := by
    rw [crawlWithFetchError, if_pos h]
  refine ⟨h1, ?_, ?_⟩
  · rw [h1]; rfl
  · rw [h1]; rfl

/-- C10 witness: a single-page store whose first fetch fails. -/
theorem C10_error_returns_empty_pair_witness :
    0 < ([⟨[ApiEntry.file afA]⟩] : List Page).length ∧
    ((crawlWithFetchError [⟨[ApiEntry.file afA]⟩] 0).1 = ([], []) ∧
    scanExitCode (crawlWithFetchError [⟨[ApiEntry.file afA]⟩] 0).1 = 1 ∧
    (crawlWithFetchError [⟨[ApiEntry.file afA]⟩] 0).1 = fullCrawl []) :=
  ⟨by decide, C10_error_returns_empty_pair [⟨[ApiEntry.file afA]⟩] 0 (by decide)⟩

/-- Unfolding of procEntry on a file entry: the record is appended and the
checkpoint branch is decided by the new file count. -/
theorem procEntry_file_eq (c : Nat) (f : ApiFile) (s : CrawlSt) :
    procEntry c s (ApiEntry.file f)
      = (if ((s.files ++ [mkFileInfo f]).length % CHECKPOINT_INTERVAL == 0) = true
         then ⟨s.files ++ [mkFileInfo f], s.folders,
            some (mkCheckpoint c nowTs (s.files ++ [mkFileInfo f]) s.folders)⟩
         else ⟨s.files ++ [mkFileInfo f], s.folders, s.saved⟩) :=
  rfl

/-- Absorbing one file entry that brings the accumulated count to a multiple
of the checkpoint interval: the checkpoint is saved with the current
cursor. -/
theorem procEntry_fires (c : Nat) (f : ApiFile) (l : List FileInfo)
    (fo : List FolderInfo) (sv : Option Checkpoint)
    (h : ((l ++ [mkFileInfo f]).length % CHECKPOINT_INTERVAL == 0) = true) :
    procEntry c ⟨l, fo, sv⟩ (ApiEntry.file f)
      = ⟨l ++ [mkFileInfo f], fo,
          some (mkCheckpoint c nowTs (l ++ [mkFileInfo f]) fo)⟩ := by
  rw [procEntry_file_eq, if_pos h]

/-- Absorbing one file entry that leaves the accumulated count away from a
multiple of the checkpoint interval: no checkpoint is written. -/
theorem procEntry_no_fire (c : Nat) (f : ApiFile) (s : CrawlSt)
    (h : ((s.files ++ [mkFileInfo f]).length % CHECKPOINT_INTERVAL == 0) = false) :
    procEntry c s (ApiEntry.file f)
      = ⟨s.files ++ [mkFileInfo f], s.folders, s.saved⟩ := by
  rw [procEntry_file_eq, if_neg (by rw [h]; exact Bool.false_ne_true)]

/-- Absorbing a run of identical file entries that stays strictly below the
checkpoint interval: the files are appended and no checkpoint fires. -/
theorem foldl_procEntry_file_small (c : Nat) (f : ApiFile) :
    ∀ (n : Nat) (s : CrawlSt), s.files.length + n < CHECKPOINT_INTERVAL →
    (List.replicate n (ApiEntry.file f)).foldl (procEntry c) s
      = ⟨s.files ++ List.replicate n (mkFileInfo f), s.folders, s.saved⟩ := by
  intro n
  induction n with
  | zero => intro s _; simp
  | succ m ih =>
    intro s h
    have hCI : CHECKPOINT_INTERVAL = 10000 := rfl
    rw [hCI] at h
    rw [List.replicate_succ, List.foldl_cons]
    have hlen : (s.files ++ [mkFileInfo f]).length = s.files.length + 1 := by simp
    have hfire : ((s.files ++ [mkFileInfo f]).length % CHECKPOINT_INTERVAL == 0) = false := by
      rw [hlen, hCI, Nat.mod_eq_of_lt (by omega), beq_eq_false_iff_ne]
      omega
    rw [procEntry_no_fire c f s hfire,
      ih ⟨s.files ++ [mkFileInfo f], s.folders, s.saved⟩ (by rw [hCI]; simp; omega)]
    simp [List.append_assoc, List.replicate_succ]

/-- Folding the cursor-paired step over a run of identical pairs is the
plain fold with that cursor. -/
theorem foldl_pair_replicate (c : Nat) (e : ApiEntry) (n : Nat) (s : CrawlSt) :
    (List.replicate n (c, e)).foldl (fun s ce => procEntry ce.1 s ce.2) s
      = (List.replicate n e).foldl (procEntry c) s := by
  induction n generalizing s with
  | zero => rfl
  | succ m ih =>
    rw [List.replicate_succ, List.replicate_succ, List.foldl_cons, List.foldl_cons]
    exact ih _

/-- Absorbing exactly 10000 identical file entries from a fresh state: all
are appended and the periodic checkpoint fires at the last one, storing the
page's cursor with the 10000 absorbed files. -/
theorem crawl_replicate_interval :
    (List.replicate 10000 (ApiEntry.file afA)).foldl (procEntry 1) initSt
      = ⟨List.replicate 10000 fiA, [],
          some (mkCheckpoint 1 nowTs (List.replicate 10000 fiA) [])⟩ := by
  have h9999 := foldl_procEntry_file_small 1 afA 9999 initSt (by decide)
  rw [show mkFileInfo afA = fiA from rfl,
    show initSt.files = ([] : List FileInfo) from rfl,
    show initSt.folders = ([] : List FolderInfo) from rfl,
    show initSt.saved = (none : Option Checkpoint) from rfl,
    List.nil_append] at h9999
  have hfire : (((List.replicate 9999 fiA : List FileInfo)
      ++ [mkFileInfo afA]).length % CHECKPOINT_INTERVAL == 0) = true := by
    rw [List.length_append, List.length_replicate]
    rfl
  have hstep := procEntry_fires 1 afA (List.replicate 9999 fiA) [] none hfire
  rw [show mkFileInfo afA = fiA from rfl,
    ← List.replicate_succ' 9999 fiA,
    show (9999 + 1 : Nat) = 10000 from rfl] at hstep
  calc (List.replicate 10000 (ApiEntry.file afA)).foldl (procEntry 1) initSt
      = (List.replicate 9999 (ApiEntry.file afA)
          ++ [ApiEntry.file afA]).foldl (procEntry 1) initSt := by
        rw [← List.replicate_succ' 9999 (ApiEntry.file afA),
          show (9999 + 1 : Nat) = 10000 from rfl]
    _ = ([ApiEntry.file afA] : List ApiEntry).foldl (procEntry 1)
          ((List.replicate 9999 (ApiEntry.file afA)).foldl (procEntry 1) initSt) := by
        rw [List.foldl_append]
    _ = ([ApiEntry.file afA] : List ApiEntry).foldl (procEntry 1)
          ⟨List.replicate 9999 fiA, [], none⟩ := by
        rw [h9999]
    _ = procEntry 1 ⟨List.replicate 9999 fiA, [], none⟩ (ApiEntry.file afA) := by
        rw [List.foldl_cons, List.foldl_nil]
    _ = ⟨List.replicate 10000 fiA, [],
          some (mkCheckpoint 1 nowTs (List.replicate 10000 fiA) [])⟩ := hstep

/-- Absorbing one file entry that leaves the count away from a multiple of
the interval, stated on state components: no checkpoint is written. -/
theorem procEntry_no_fire_parts (c : Nat) (f : ApiFile) (l : List FileInfo)
    (fo : List FolderInfo) (sv : Option Checkpoint)
    (h : ((l ++ [mkFileInfo f]).length % CHECKPOINT_INTERVAL == 0) = false) :
    procEntry c ⟨l, fo, sv⟩ (ApiEntry.file f) = ⟨l ++ [mkFileInfo f], fo, sv⟩ := by
  rw [procEntry_file_eq, if_neg (by rw [h]; exact Bool.false_ne_true)]

/-- Absorbing all 10001 entries of the oversized page: the checkpoint saved
at entry 10000 stays on disk while the last entry is appended only in
memory. -/
theorem crawl_replicate_interval_succ :
    (List.replicate 10001 (ApiEntry.file afA)).foldl (procEntry 1) initSt
      = ⟨List.replicate 10001 fiA, [],
          some (mkCheckpoint 1 nowTs (List.replicate 10000 fiA) [])⟩ := by
  have hfire : (((List.replicate 10000 fiA : List FileInfo)
      ++ [mkFileInfo afA]).length % CHECKPOINT_INTERVAL == 0) = false := by
    rw [List.length_append, List.length_replicate]
    rfl
  have hstep := procEntry_no_fire_parts 1 afA (List.replicate 10000 fiA) []
    (some (mkCheckpoint 1 nowTs (List.replicate 10000 fiA) [])) hfire
  rw [show mkFileInfo afA = fiA from rfl, ← List.replicate_succ' 10000 fiA,
    show (10000 + 1 : Nat) = 10001 from rfl] at hstep
  calc (List.replicate 10001 (ApiEntry.file afA)).foldl (procEntry 1) initSt
      = (List.replicate 10000 (ApiEntry.file afA)
          ++ [ApiEntry.file afA]).foldl (procEntry 1) initSt := by
        rw [← List.replicate_succ' 10000 (ApiEntry.file afA),
          show (10000 + 1 : Nat) = 10001 from rfl]
    _ = ([ApiEntry.file afA] : List ApiEntry).foldl (procEntry 1)
          ((List.replicate 10000 (ApiEntry.file afA)).foldl (procEntry 1) initSt) := by
        rw [List.foldl_append]
    _ = ([ApiEntry.file afA] : List ApiEntry).foldl (procEntry 1)
          ⟨List.replicate 10000 fiA, [],
            some (mkCheckpoint 1 nowTs (List.replicate 10000 fiA) [])⟩ := by
        rw [crawl_replicate_interval]
    _ = procEntry 1 ⟨List.replicate 10000 fiA, [],
          some (mkCheckpoint 1 nowTs (List.replicate 10000 fiA) [])⟩
          (ApiEntry.file afA) := by
        rw [List.foldl_cons, List.foldl_nil]
    _ = ⟨List.replicate 10001 fiA, [],
          some (mkCheckpoint 1 nowTs (List.replicate 10000 fiA) [])⟩ := hstep

/-- The oversized page entry stream: 10001 copies of the file entry, each
paired with the page cursor 1. -/
theorem entryStream_bigPage :
    entryStream [bigPage] = List.replicate 10001 ((1 : Nat), ApiEntry.file afA) := by
  show ([((0 : Nat), bigPage)]).flatMap
      (fun ip => ip.2.entries.map (fun e => (ip.1 + 1, e)))
    = List.replicate 10001 ((1 : Nat), ApiEntry.file afA)
  rw [List.flatMap_cons, List.flatMap_nil, List.append_nil]
  show bigPage.entries.map (fun e => ((0 : Nat) + 1, e))
    = List.replicate 10001 ((1 : Nat), ApiEntry.file afA)
  rw [show bigPage.entries = List.replicate 10001 (ApiEntry.file afA) from rfl,
    List.map_replicate]

/-- The first 10000 stream entries of the oversized page. -/
theorem entryStream_take_bigPage : (entryStream [bigPage]).take 10000
    = List.replicate 10000 ((1 : Nat), ApiEntry.file afA) := by
  rw [entryStream_bigPage, List.take_replicate,
    show ((10000 : Nat) ⊓ 10001) = 10000 from rfl]

/-- Folding the first 10000 stream entries from a fresh state: the periodic
checkpoint fires exactly at the 10000th file. -/
theorem crawlFold_bigPage : (List.replicate 10000 ((1 : Nat), ApiEntry.file afA)).foldl
      (fun s ce => procEntry ce.1 s ce.2) initSt
    = ⟨List.replicate 10000 fiA, [],
        some (mkCheckpoint 1 nowTs (List.replicate 10000 fiA) [])⟩ := by
  rw [foldl_pair_replicate]
  exact crawl_replicate_interval

/-- Definitional unfolding of interruptedDisk, stated at variable arguments
so the equation is cheap to check. -/
theorem interruptedDisk_def (pages : List Page) (k : Nat) :
    interruptedDisk pages k
      = (((entryStream pages).take k).foldl
          (fun s ce => procEntry ce.1 s ce.2) initSt).saved := rfl

/-- C1: resume correctness fails on the code. The periodic checkpoint is
saved mid-page with the cursor of the next page, so interrupting a crawl of
a single 10001-entry page right after the checkpoint at file 10000 and
resuming from the persisted checkpoint yields 10000 entries, while an
uninterrupted crawl yields 10001: the last entry of the partially absorbed
page is skipped by the resumed crawl. -/
theorem C1_resume_skips_entries :
    interruptedDisk [bigPage] 10000
      = some (mkCheckpoint 1 nowTs (List.replicate 10000 fiA) []) ∧
    resumeCrawl [bigPage] (interruptedDisk [bigPage] 10000)
      = (List.replicate 10000 fiA, []) ∧
    fullCrawl [bigPage] = (List.replicate 10001 fiA, []) ∧
    resumeCrawl [bigPage] (interruptedDisk [bigPage] 10000) ≠ fullCrawl [bigPage] := by
  have hdisk : interruptedDisk [bigPage] 10000
      = some (mkCheckpoint 1 nowTs (List.replicate 10000 fiA) []) := by
    rw [interruptedDisk_def, entryStream_take_bigPage, crawlFold_bigPage]
  have hresume : resumeCrawl [bigPage] (interruptedDisk [bigPage] 10000)
      = (List.replicate 10000 fiA, []) := by
    rw [hdisk]
    rfl
  have hfull : fullCrawl [bigPage] = (List.replicate 10001 fiA, []) := by
    have hc : crawlFrom [bigPage] 0 initSt
        = ⟨List.replicate 10001 fiA, [],
            some (mkCheckpoint 1 nowTs (List.replicate 10000 fiA) [])⟩ := by
      show (pagesFrom [bigPage] 0).foldl (fun s ip => procPage ip.1 s ip.2) initSt = _
      rw [show pagesFrom [bigPage] 0 = [((0 : Nat), bigPage)] from rfl,
        List.foldl_cons, List.foldl_nil]
      show bigPage.entries.foldl (procEntry 1) initSt = _
      rw [show bigPage.entries = List.replicate 10001 (ApiEntry.file afA) from rfl]
      exact crawl_replicate_interval_succ
    show ((crawlFrom [bigPage] 0 initSt).files,
      (crawlFrom [bigPage] 0 initSt).folders) = _
    rw [hc]
  refine ⟨hdisk, hresume, hfull, ?_⟩
  rw [hresume, hfull]
  intro h
  have h1 : List.replicate 10000 fiA = List.replicate 10001 fiA :=
    congrArg Prod.fst h
  have h2 := congrArg List.length h1
  rw [List.length_replicate, List.length_replicate] at h2
  exact absurd h2 (by decide)


/-- The duplicates update leaves every other analysis field unchanged. -/
theorem dupStep_fields (a : Analysis) (f : FileInfo) :
    (dupStep a f).by_extension = a.by_extension ∧
    (dupStep a f).by_folder = a.by_folder ∧
    (dupStep a f).by_age = a.by_age ∧
    (dupStep a f).total_files = a.total_files ∧
    (dupStep a f).total_size = a.total_size := by
  cases hf : f.hash with
  | none => simp [dupStep, hf]
  | some h =>
    simp only [dupStep, hf]
    split <;> simp

/-- The age part of the loop succeeds on a file with an unproblematic
timestamp, bumping exactly the file's age bucket (none for an absent or
empty timestamp) and touching no other tracked field. -/
theorem ageStep_ok (ageDays : String → Option Int) (a : Analysis) (f : FileInfo)
    (hts : tsOk ageDays f = true) :
    ∃ a1, ageStep ageDays a f = Except.ok a1 ∧
      a1.by_extension = a.by_extension ∧
      a1.by_folder = a.by_folder ∧
      (∀ b, a1.by_age b = (if ageKey ageDays f == some b
        then ((a.by_age b).1 + 1, (a.by_age b).2 + f.size)
        else a.by_age b)) ∧
      a1.total_files = a.total_files ∧
      a1.total_size = a.total_size := by
  cases hm : f.modified with
  | none =>
    refine ⟨a, by simp [ageStep, hm], rfl, rfl, ?_, rfl, rfl⟩
    intro b
    simp [ageKey, hm]
  | some s =>
    by_cases hs : s = ""
    · refine ⟨a, by simp [ageStep, hm, hs], rfl, rfl, ?_, rfl, rfl⟩
      intro b
      simp [ageKey, hm, hs]
    · have hsome : (ageDays s).isSome = true := by
        simpa [tsOk, hm, hs] using hts
      obtain ⟨d, hd⟩ := Option.isSome_iff_exists.mp hsome
      have hak : ageKey ageDays f = some (ageBucket d) := by
        simp [ageKey, hm, hs, hd]
      have hbeq : ∀ b : String,
          (ageKey ageDays f == some b) = (ageBucket d == b) := by
        intro b
        rw [hak]
        rfl
      by_cases h3 : (1095 : Int) ≤ d
      · by_cases hsz : (1048576 : Nat) < f.size
        · have hok : ageStep ageDays a f = Except.ok ({ a with by_age := bump a.by_age (ageBucket d) f.size, old_files := a.old_files ++ [(f.path, f.size, d)] } : Analysis) := by
            simp [ageStep, hm, hs, hd, h3, hsz]
          refine ⟨_, hok, rfl, rfl, ?_, rfl, rfl⟩
          intro b
          rw [hbeq b]
          rfl
        · have hok : ageStep ageDays a f = Except.ok ({ a with by_age := bump a.by_age (ageBucket d) f.size } : Analysis) := by
            simp [ageStep, hm, hs, hd, h3, hsz]
          refine ⟨_, hok, rfl, rfl, ?_, rfl, rfl⟩
          intro b
          rw [hbeq b]
          rfl
      · have hok : ageStep ageDays a f = Except.ok ({ a with by_age := bump a.by_age (ageBucket d) f.size } : Analysis) := by
          simp [ageStep, hm, hs, hd, h3]
        refine ⟨_, hok, rfl, rfl, ?_, rfl, rfl⟩
        intro b
        rw [hbeq b]
        rfl

/-- One loop iteration on a file with an unproblematic timestamp succeeds
and bumps exactly the file's extension key, top-level folder, and (when it
has one) age bucket, preserving the totals. -/
theorem analyzeStep_ok (ageDays : String → Option Int) (a : Analysis)
    (f : FileInfo) (hts : tsOk ageDays f = true) :
    ∃ a2, analyzeStep ageDays a f = Except.ok a2 ∧
      (∀ e, a2.by_extension e = (if extKey f == e
        then ((a.by_extension e).1 + 1, (a.by_extension e).2 + f.size)
        else a.by_extension e)) ∧
      (∀ fo, a2.by_folder fo = (if topFolder f.path == fo
        then ((a.by_folder fo).1 + 1, (a.by_folder fo).2 + f.size)
        else a.by_folder fo)) ∧
      (∀ b, a2.by_age b = (if ageKey ageDays f == some b
        then ((a.by_age b).1 + 1, (a.by_age b).2 + f.size)
        else a.by_age b)) ∧
      a2.total_files = a.total_files ∧
      a2.total_size = a.total_size := by
  obtain ⟨a1, ha1, hext1, hfo1, hage1, htf1, hsz1⟩ :=
    ageStep_ok ageDays { a with
      by_extension := bump a.by_extension (extKey f) f.size,
      by_folder := bump a.by_folder (topFolder f.path) f.size } f hts
  obtain ⟨hdext, hdfo, hdage, hdtf, hdsz⟩ := dupStep_fields a1 f
  refine ⟨dupStep a1 f, ?_, ?_, ?_, ?_, ?_, ?_⟩
  · show (match ageStep ageDays _ f with
      | Except.error e => Except.error e
      | Except.ok a2 => Except.ok (dupStep a2 f)) = _
    rw [ha1]
  · intro e
    rw [hdext, hext1]
    rfl
  · intro fo
    rw [hdfo, hfo1]
    rfl
  · intro b
    rw [hdage, hage1]
  · rw [hdtf, htf1]
  · rw [hdsz, hsz1]

/-- The analysis loop over files with unproblematic timestamps succeeds and
adds, to every key of the three summary maps, exactly the count and byte
total of the processed files falling under that key; the totals are
untouched. -/
theorem analyze_loop (ageDays : String → Option Int) :
    ∀ (files : List FileInfo) (a : Analysis),
      (∀ f ∈ files, tsOk ageDays f = true) →
      ∃ r, files.foldlM (analyzeStep ageDays) a = Except.ok r ∧
        (∀ e, (r.by_extension e).1 = (a.by_extension e).1
            + (files.filter (fun f => extKey f == e)).length ∧
          (r.by_extension e).2 = (a.by_extension e).2
            + ((files.filter (fun f => extKey f == e)).map FileInfo.size).sum) ∧
        (∀ fo, (r.by_folder fo).1 = (a.by_folder fo).1
            + (files.filter (fun f => topFolder f.path == fo)).length ∧
          (r.by_folder fo).2 = (a.by_folder fo).2
            + ((files.filter (fun f => topFolder f.path == fo)).map FileInfo.size).sum) ∧
        (∀ b, (r.by_age b).1 = (a.by_age b).1
            + (files.filter (fun f => ageKey ageDays f == some b)).length ∧
          (r.by_age b).2 = (a.by_age b).2
            + ((files.filter (fun f => ageKey ageDays f == some b)).map FileInfo.size).sum) ∧
        r.total_files = a.total_files ∧
        r.total_size = a.total_size := by
  intro files
  induction files with
  | nil =>
    intro a _
    exact ⟨a, rfl, by simp, by simp, by simp, rfl, rfl⟩
  | cons f fs ih =>
    intro a h
    obtain ⟨a2, ha2, hext, hfo, hage, htf, hsz⟩ :=
      analyzeStep_ok ageDays a f (h f (List.mem_cons_self _ _))
    obtain ⟨r, hr, hext', hfo', hage', htf', hsz'⟩ :=
      ih a2 (fun g hg => h g (List.mem_cons_of_mem _ hg))
    refine ⟨r, ?_, ?_, ?_, ?_, ?_, ?_⟩
    · rw [List.foldlM_cons, ha2]
      exact hr
    · intro e
      have h1 := (hext' e).1
      have h2 := (hext' e).2
      rw [List.filter_cons]
      cases hpf : (extKey f == e) with
      | true =>
        rw [hext e, hpf] at h1 h2
        simp only [hpf, if_true]
        constructor
        · rw [h1]
          simp
          omega
        · rw [h2]
          simp
          omega
      | false =>
        rw [hext e, hpf] at h1 h2
        simp only [hpf, Bool.false_eq_true, if_false]
        exact ⟨h1, h2⟩
    · intro fo
      have h1 := (hfo' fo).1
      have h2 := (hfo' fo).2
      rw [List.filter_cons]
      cases hpf : (topFolder f.path == fo) with
      | true =>
        rw [hfo fo, hpf] at h1 h2
        simp only [hpf, if_true]
        constructor
        · rw [h1]
          simp
          omega
        · rw [h2]
          simp
          omega
      | false =>
        rw [hfo fo, hpf] at h1 h2
        simp only [hpf, Bool.false_eq_true, if_false]
        exact ⟨h1, h2⟩
    · intro b
      have h1 := (hage' b).1
      have h2 := (hage' b).2
      rw [List.filter_cons]
      cases hpf : (ageKey ageDays f == some b) with
      | true =>
        rw [hage b, hpf] at h1 h2
        simp only [hpf, if_true]
        constructor
        · rw [h1]
          simp
          omega
        · rw [h2]
          simp
          omega
      | false =>
        rw [hage b, hpf] at h1 h2
        simp only [hpf, Bool.false_eq_true, if_false]
        exact ⟨h1, h2⟩
    · rw [htf', htf]
    · rw [hsz', hsz]

/-- C9 counterexample: a single entry with a non-empty timestamp the parser
rejects makes analyze_files abort with an error instead of completing with
the entry treated as unknown age — fromisoformat's ValueError is uncaught. -/
theorem C9_malformed_timestamp_aborts :
    analyze_files (fun _ => none)
      [⟨"/x/y", "y", 1, some "not-a-date", none, ""⟩] = Except.error () ∧
    ∀ a, analyze_files (fun _ => none)
      [⟨"/x/y", "y", 1, some "not-a-date", none, ""⟩] ≠ Except.ok a := by
  refine ⟨rfl, ?_⟩
  intro a h
  rw [show analyze_files (fun _ => none)
    [⟨"/x/y", "y", 1, some "not-a-date", none, ""⟩]
      = (Except.error () : Except Unit Analysis) from rfl] at h
  exact Except.noConfusion h

/-- C9 (amended): the analysis completes normally exactly when every
present, non-empty timestamp parses. Under that condition, an entry with an
absent or empty timestamp is excluded from age bucketing (it lands in no
bucket) while still contributing to the extension and folder totals, and
every summary map holds exactly the count and byte total of its key's
files; a non-empty timestamp that fails to parse aborts the whole analysis
(the counterexample). -/
theorem C9_analysis_totals (ageDays : String → Option Int)
    (files : List FileInfo) (h : ∀ f ∈ files, tsOk ageDays f = true) :
    ∃ a, analyze_files ageDays files = Except.ok a ∧
      a.total_files = files.length ∧
      (∀ e, a.by_extension e = ((files.filter (fun f => extKey f == e)).length,
        ((files.filter (fun f => extKey f == e)).map FileInfo.size).sum)) ∧
      (∀ fo, a.by_folder fo = ((files.filter (fun f => topFolder f.path == fo)).length,
        ((files.filter (fun f => topFolder f.path == fo)).map FileInfo.size).sum)) ∧
      (∀ b, a.by_age b = ((files.filter (fun f => ageKey ageDays f == some b)).length,
        ((files.filter (fun f => ageKey ageDays f == some b)).map FileInfo.size).sum)) := by
  obtain ⟨r, hr, hext, hfo, hage, htf, _⟩ := analyze_loop ageDays files
    { total_files := files.length,
      total_size := files.foldl (fun t f => t + f.size) 0,
      by_extension := fun _ => (0, 0),
      by_age := fun _ => (0, 0),
      by_folder := fun _ => (0, 0),
      duplicates := fun _ => [],
      old_files := [] } h
  refine ⟨r, hr, htf, ?_, ?_, ?_⟩
  · intro e
    have h1 := (hext e).1
    have h2 := (hext e).2
    simp only [Nat.zero_add] at h1 h2
    exact Prod.ext h1 h2
  · intro fo
    have h1 := (hfo fo).1
    have h2 := (hfo fo).2
    simp only [Nat.zero_add] at h1 h2
    exact Prod.ext h1 h2
  · intro b
    have h1 := (hage b).1
    have h2 := (hage b).2
    simp only [Nat.zero_add] at h1 h2
    exact Prod.ext h1 h2

/-- C9 witness: two concrete entries, one with an absent timestamp and one
with a parseable one; the analysis completes, both count toward extension
totals, and exactly the parseable one lands in an age bucket. -/
theorem C9_analysis_totals_witness :
    (∀ f ∈ [(⟨"/docs/a.txt", "a.txt", 5, none, some "h1", ".txt"⟩ : FileInfo),
        ⟨"/docs/b.txt", "b.txt", 7, some "2020-01-01T00:00:00", none, ".txt"⟩],
      tsOk (fun s => if s = "2020-01-01T00:00:00" then some 2100 else none) f = true) ∧
    (∃ a, analyze_files
        (fun s => if s = "2020-01-01T00:00:00" then some 2100 else none)
        [⟨"/docs/a.txt", "a.txt", 5, none, some "h1", ".txt"⟩,
         ⟨"/docs/b.txt", "b.txt", 7, some "2020-01-01T00:00:00", none, ".txt"⟩]
        = Except.ok a ∧
      a.total_files = 2 ∧
      (∀ e, a.by_extension e
        = (([(⟨"/docs/a.txt", "a.txt", 5, none, some "h1", ".txt"⟩ : FileInfo),
            ⟨"/docs/b.txt", "b.txt", 7, some "2020-01-01T00:00:00", none, ".txt"⟩].filter
              (fun f => extKey f == e)).length,
          (([(⟨"/docs/a.txt", "a.txt", 5, none, some "h1", ".txt"⟩ : FileInfo),
            ⟨"/docs/b.txt", "b.txt", 7, some "2020-01-01T00:00:00", none, ".txt"⟩].filter
              (fun f => extKey f == e)).map FileInfo.size).sum)) ∧
      (∀ fo, a.by_folder fo
        = (([(⟨"/docs/a.txt", "a.txt", 5, none, some "h1", ".txt"⟩ : FileInfo),
            ⟨"/docs/b.txt", "b.txt", 7, some "2020-01-01T00:00:00", none, ".txt"⟩].filter
              (fun f => topFolder f.path == fo)).length,
          (([(⟨"/docs/a.txt", "a.txt", 5, none, some "h1", ".txt"⟩ : FileInfo),
            ⟨"/docs/b.txt", "b.txt", 7, some "2020-01-01T00:00:00", none, ".txt"⟩].filter
              (fun f => topFolder f.path == fo)).map FileInfo.size).sum)) ∧
      (∀ b, a.by_age b
        = (([(⟨"/docs/a.txt", "a.txt", 5, none, some "h1", ".txt"⟩ : FileInfo),
            ⟨"/docs/b.txt", "b.txt", 7, some "2020-01-01T00:00:00", none, ".txt"⟩].filter
              (fun f => ageKey (fun s => if s = "2020-01-01T00:00:00" then some 2100 else none) f
                == some b)).length,
          (([(⟨"/docs/a.txt", "a.txt", 5, none, some "h1", ".txt"⟩ : FileInfo),
            ⟨"/docs/b.txt", "b.txt", 7, some "2020-01-01T00:00:00", none, ".txt"⟩].filter
              (fun f => ageKey (fun s => if s = "2020-01-01T00:00:00" then some 2100 else none) f
                == some b)).map FileInfo.size).sum))) :=
  ⟨by decide,
    (C9_analysis_totals (fun s => if s = "2020-01-01T00:00:00" then some 2100 else none)
      [⟨"/docs/a.txt", "a.txt", 5, none, some "h1", ".txt"⟩,
       ⟨"/docs/b.txt", "b.txt", 7, some "2020-01-01T00:00:00", none, ".txt"⟩]
      (by decide))⟩

/-- The report of a chunk carries the chunk itself as its batch. -/
theorem reportOf_batch (submit : Nat → List String → SubmitRes)
    (paths : List String) (bs nb j : Nat) :
    (reportOf submit paths bs nb j).batch = (paths.drop (j * bs)).take bs := by
  unfold reportOf
  cases submit j ((paths.drop (j * bs)).take bs) <;> rfl

/-- Characterization of the batch_delete_fast loop over any list of chunk
indices: every index is submitted and reported in order, and the deleted and
failed counters are the sums of the per-chunk contributions — each chunk's
contribution depends only on its own submission outcome. -/
theorem fast_go (submit : Nat → List String → SubmitRes) (paths : List String)
    (bs nb : Nat) :
    ∀ (l : List Nat) (st : FastState),
      (l.foldl (stepChunk submit paths bs nb) st).reports
          = st.reports ++ l.map (reportOf submit paths bs nb) ∧
      (l.foldl (stepChunk submit paths bs nb) st).deleted
          = st.deleted + (l.map (chunkDeleted submit paths bs)).sum ∧
      (l.foldl (stepChunk submit paths bs nb) st).failed
          = st.failed + (l.map (chunkFailed submit paths bs)).sum := by
  intro l
  induction l with
  | nil => intro st; simp
  | cons j js ih =>
    intro st
    rw [List.foldl_cons]
    obtain ⟨ihr, ihd, ihf⟩ := ih (stepChunk submit paths bs nb st j)
    cases hsub : submit j ((paths.drop (j * bs)).take bs) with
    | apiError =>
      refine ⟨?_, ?_, ?_⟩
      · have h1 : (stepChunk submit paths bs nb st j).reports
            = st.reports ++ [⟨(paths.drop (j * bs)).take bs, SubmitRes.apiError, some 5⟩] := by
          simp [stepChunk, hsub]
        have h2 : reportOf submit paths bs nb j
            = ⟨(paths.drop (j * bs)).take bs, SubmitRes.apiError, some 5⟩ := by
          simp [reportOf, hsub]
        rw [ihr, h1, List.map_cons, h2, List.append_assoc]
        rfl
      · have h1 : (stepChunk submit paths bs nb st j).deleted = st.deleted := by
          simp [stepChunk, hsub]
        have h2 : chunkDeleted submit paths bs j = 0 := by
          simp [chunkDeleted, hsub]
        rw [ihd, h1, List.map_cons, h2, List.sum_cons]
        omega
      · have h1 : (stepChunk submit paths bs nb st j).failed
            = st.failed + ((paths.drop (j * bs)).take bs).length := by
          simp [stepChunk, hsub]
        have h2 : chunkFailed submit paths bs j
            = ((paths.drop (j * bs)).take bs).length := by
          simp [chunkFailed, hsub]
        rw [ihf, h1, List.map_cons, h2, List.sum_cons]
        omega
    | completed es =>
      refine ⟨?_, ?_, ?_⟩
      · have h1 : (stepChunk submit paths bs nb st j).reports
            = st.reports ++ [⟨(paths.drop (j * bs)).take bs, SubmitRes.completed es,
                if j + 1 < nb then some 2 else none⟩] := by
          simp [stepChunk, hsub]
        have h2 : reportOf submit paths bs nb j
            = ⟨(paths.drop (j * bs)).take bs, SubmitRes.completed es,
                if j + 1 < nb then some 2 else none⟩ := by
          simp [reportOf, hsub]
        rw [ihr, h1, List.map_cons, h2, List.append_assoc]
        rfl
      · have h1 : (stepChunk submit paths bs nb st j).deleted
            = st.deleted + process_batch_result es := by
          simp [stepChunk, hsub]
        have h2 : chunkDeleted submit paths bs j = process_batch_result es := by
          simp [chunkDeleted, hsub]
        rw [ihd, h1, List.map_cons, h2, List.sum_cons]
        omega
      · have h1 : (stepChunk submit paths bs nb st j).failed = st.failed := by
          simp [stepChunk, hsub]
        have h2 : chunkFailed submit paths bs j = 0 := by
          simp [chunkFailed, hsub]
        rw [ihf, h1, List.map_cons, h2, List.sum_cons]
        omega
    | asyncFailed =>
      refine ⟨?_, ?_, ?_⟩
      · have h1 : (stepChunk submit paths bs nb st j).reports
            = st.reports ++ [⟨(paths.drop (j * bs)).take bs, SubmitRes.asyncFailed,
                if j + 1 < nb then some 2 else none⟩] := by
          simp [stepChunk, hsub]
        have h2 : reportOf submit paths bs nb j
            = ⟨(paths.drop (j * bs)).take bs, SubmitRes.asyncFailed,
                if j + 1 < nb then some 2 else none⟩ := by
          simp [reportOf, hsub]
        rw [ihr, h1, List.map_cons, h2, List.append_assoc]
        rfl
      · have h1 : (stepChunk submit paths bs nb st j).deleted = st.deleted := by
          simp [stepChunk, hsub]
        have h2 : chunkDeleted submit paths bs j = 0 := by
          simp [chunkDeleted, hsub]
        rw [ihd, h1, List.map_cons, h2, List.sum_cons]
        omega
      · have h1 : (stepChunk submit paths bs nb st j).failed
            = st.failed + ((paths.drop (j * bs)).take bs).length := by
          simp [stepChunk, hsub]
        have h2 : chunkFailed submit paths bs j
            = ((paths.drop (j * bs)).take bs).length := by
          simp [chunkFailed, hsub]
        rw [ihf, h1, List.map_cons, h2, List.sum_cons]
        omega

/-- An empty path list yields no chunks. -/
theorem chunksOf_nil (bs : Nat) : chunksOf [] bs = [] := by
  have h0 : (([] : List String).length + bs - 1) / bs = 0 := by
    simp only [List.length_nil]
    rcases Nat.eq_zero_or_pos bs with h | h
    · subst h
      rfl
    · exact Nat.div_eq_of_lt (by omega)
  unfold chunksOf
  rw [h0]
  rfl

/-- Peeling the first chunk off a nonempty path list. -/
theorem chunksOf_cons (paths : List String) (bs : Nat) (hbs : 0 < bs)
    (hne : paths ≠ []) :
    chunksOf paths bs = paths.take bs :: chunksOf (paths.drop bs) bs := by
  have hlen : 1 ≤ paths.length := List.length_pos.mpr hne
  have hnb : (paths.length + bs - 1) / bs = (paths.length - 1) / bs + 1 := by
    have h : paths.length + bs - 1 = (paths.length - 1) + bs := by omega
    rw [h, Nat.add_div_right _ hbs]
  have hnb' : ((paths.drop bs).length + bs - 1) / bs = (paths.length - 1) / bs := by
    rw [List.length_drop]
    rcases Nat.le_total bs paths.length with hc | hc
    · have h : paths.length - bs + bs - 1 = paths.length - 1 := by omega
      rw [h]
    · have h0 : paths.length - bs = 0 := by omega
      rw [h0, Nat.div_eq_of_lt (by omega), Nat.div_eq_of_lt (by omega)]
  show (List.range ((paths.length + bs - 1) / bs)).map
      (fun j => (paths.drop (j * bs)).take bs) = _
  rw [hnb, List.range_succ_eq_map, List.map_cons, Nat.zero_mul, List.drop_zero]
  congr 1
  rw [List.map_map,
    show chunksOf (paths.drop bs) bs
      = (List.range (((paths.drop bs).length + bs - 1) / bs)).map
        (fun j => ((paths.drop bs).drop (j * bs)).take bs) from rfl, hnb']
  apply List.map_congr_left
  intro j _
  show (paths.drop (Nat.succ j * bs)).take bs
    = ((paths.drop bs).drop (j * bs)).take bs
  rw [List.drop_drop, Nat.succ_mul, Nat.add_comm bs (j * bs)]

/-- The chunks cover the plan exactly: concatenating them in order gives
back the path list. -/
theorem chunksOf_flatten (bs : Nat) (hbs : 0 < bs) :
    ∀ (n : Nat) (paths : List String), paths.length ≤ n →
      (chunksOf paths bs).flatten = paths := by
  intro n
  induction n with
  | zero =>
    intro paths h
    have : paths = [] := List.length_eq_zero.mp (Nat.le_zero.mp h)
    subst this
    rw [chunksOf_nil]
    rfl
  | succ m ih =>
    intro paths h
    by_cases hne : paths = []
    · subst hne
      rw [chunksOf_nil]
      rfl
    · rw [chunksOf_cons paths bs hbs hne, List.flatten_cons,
        ih (paths.drop bs) (by
          rw [List.length_drop]
          have := List.length_pos.mpr hne
          omega)]
      exact List.take_append_drop bs paths

/-- C8: partial-failure isolation in batch_delete_fast. Every chunk of the
plan is submitted and reported whatever happened to the other chunks (the
reported batches are exactly the plan's chunks, which concatenate back to
the plan); a chunk whose submission raises ApiError waits 5 seconds — longer
than the 2-second inter-batch delay — and contributes its length to the
failed count, while every other chunk reports its own outcome: the deleted
and failed totals are sums of independent per-chunk contributions. -/
theorem C8_partial_failure_isolation (submit : Nat → List String → SubmitRes)
    (paths : List String) (bs : Nat) (hbs : 0 < bs) :
    ((batch_delete_fast submit paths bs).reports.map ChunkReport.batch
        = chunksOf paths bs) ∧
    (chunksOf paths bs).flatten = paths ∧
    (∀ rep ∈ (batch_delete_fast submit paths bs).reports,
      rep.res = SubmitRes.apiError → rep.sleptAfter = some 5) ∧
    (∀ rep ∈ (batch_delete_fast submit paths bs).reports,
      rep.res ≠ SubmitRes.apiError →
        rep.sleptAfter = some 2 ∨ rep.sleptAfter = none) ∧
    (2 : Nat) < 5 ∧
    (batch_delete_fast submit paths bs).deleted
        = ((List.range ((paths.length + bs - 1) / bs)).map
            (chunkDeleted submit paths bs)).sum ∧
    (batch_delete_fast submit paths bs).failed
        = ((List.range ((paths.length + bs - 1) / bs)).map
            (chunkFailed submit paths bs)).sum := by
  obtain ⟨hr, hd, hf⟩ := fast_go submit paths bs ((paths.length + bs - 1) / bs)
    (List.range ((paths.length + bs - 1) / bs)) ⟨0, 0, []⟩
  have hb : batch_delete_fast submit paths bs
      = (List.range ((paths.length + bs - 1) / bs)).foldl
        (stepChunk submit paths bs ((paths.length + bs - 1) / bs)) ⟨0, 0, []⟩ := rfl
  have hmem : ∀ rep ∈ (batch_delete_fast submit paths bs).reports,
      ∃ j, rep = reportOf submit paths bs ((paths.length + bs - 1) / bs) j := by
    intro rep hrep
    rw [hb, hr, List.nil_append] at hrep
    obtain ⟨j, _, hj⟩ := List.mem_map.mp hrep
    exact ⟨j, hj.symm⟩
  refine ⟨?_, chunksOf_flatten bs hbs paths.length paths le_rfl, ?_, ?_,
    by omega, ?_, ?_⟩
  · rw [hb, hr, List.nil_append, List.map_map]
    exact List.map_congr_left (fun j _ => reportOf_batch submit paths bs _ j)
  · intro rep hrep herr
    obtain ⟨j, hj⟩ := hmem rep hrep
    subst hj
    revert herr
    unfold reportOf
    cases submit j ((paths.drop (j * bs)).take bs) with
    | apiError => intro _; rfl
    | completed es => intro herr; exact absurd herr (by simp)
    | asyncFailed => intro herr; exact absurd herr (by simp)
  · intro rep hrep hne
    obtain ⟨j, hj⟩ := hmem rep hrep
    subst hj
    revert hne
    unfold reportOf
    cases submit j ((paths.drop (j * bs)).take bs) with
    | apiError => intro hne; exact absurd rfl hne
    | completed es =>
      intro _
      by_cases hlast : j + 1 < (paths.length + bs - 1) / bs
      · left; simp [hlast]
      · right; simp [hlast]
    | asyncFailed =>
      intro _
      by_cases hlast : j + 1 < (paths.length + bs - 1) / bs
      · left; simp [hlast]
      · right; simp [hlast]
  · rw [hb, hd]
    simp
  · rw [hb, hf]
    simp

/-- C8 witness: three one-path chunks, the middle one raising ApiError —
chunks 1 and 3 still complete and report their own outcomes. -/
theorem C8_partial_failure_isolation_witness :
    (0 : Nat) < 1 ∧
    ((((batch_delete_fast
        (fun j batch => if j = 1 then SubmitRes.apiError
          else SubmitRes.completed (batch.map (fun _ => DelEntry.success)))
        ["/a", "/b", "/c"] 1).reports.map ChunkReport.batch
        = chunksOf ["/a", "/b", "/c"] 1) ∧
    (chunksOf ["/a", "/b", "/c"] 1).flatten = ["/a", "/b", "/c"] ∧
    (∀ rep ∈ (batch_delete_fast
        (fun j batch => if j = 1 then SubmitRes.apiError
          else SubmitRes.completed (batch.map (fun _ => DelEntry.success)))
        ["/a", "/b", "/c"] 1).reports,
      rep.res = SubmitRes.apiError → rep.sleptAfter = some 5) ∧
    (∀ rep ∈ (batch_delete_fast
        (fun j batch => if j = 1 then SubmitRes.apiError
          else SubmitRes.completed (batch.map (fun _ => DelEntry.success)))
        ["/a", "/b", "/c"] 1).reports,
      rep.res ≠ SubmitRes.apiError →
        rep.sleptAfter = some 2 ∨ rep.sleptAfter = none) ∧
    (2 : Nat) < 5 ∧
    (batch_delete_fast
        (fun j batch => if j = 1 then SubmitRes.apiError
          else SubmitRes.completed (batch.map (fun _ => DelEntry.success)))
        ["/a", "/b", "/c"] 1).deleted
        = ((List.range (((["/a", "/b", "/c"] : List String).length + 1 - 1) / 1)).map
            (chunkDeleted
              (fun j batch => if j = 1 then SubmitRes.apiError
                else SubmitRes.completed (batch.map (fun _ => DelEntry.success)))
              ["/a", "/b", "/c"] 1)).sum ∧
    (batch_delete_fast
        (fun j batch => if j = 1 then SubmitRes.apiError
          else SubmitRes.completed (batch.map (fun _ => DelEntry.success)))
        ["/a", "/b", "/c"] 1).failed
        = ((List.range (((["/a", "/b", "/c"] : List String).length + 1 - 1) / 1)).map
            (chunkFailed
              (fun j batch => if j = 1 then SubmitRes.apiError
                else SubmitRes.completed (batch.map (fun _ => DelEntry.success)))
              ["/a", "/b", "/c"] 1)).sum)) :=
  ⟨by decide,
    C8_partial_failure_isolation
      (fun j batch => if j = 1 then SubmitRes.apiError
        else SubmitRes.completed (batch.map (fun _ => DelEntry.success)))
      ["/a", "/b", "/c"] 1 (by decide)⟩

/-- Counting a batch consisting solely of already-absent failures: every
entry is classified as already deleted, so the whole batch counts as
deleted. -/
theorem pbr_go (es : List DelEntry) :
    ∀ (d : Nat), es.all entryAbsent = true →
      es.foldl pbrStep d = d + es.length := by
  induction es with
  | nil => intro d _; simp
  | cons e es ih =>
    intro d hall
    rw [List.all_cons, Bool.and_eq_true] at hall
    rw [List.foldl_cons]
    cases e with
    | success => exact absurd hall.1 (by simp [entryAbsent])
    | failure r =>
      have hnf : isNotFoundIn (pyLower r) = true := by
        simpa [entryAbsent] using hall.1
      have hstep : pbrStep d (DelEntry.failure r) = d + 1 := by
        simp [pbrStep, hnf]
      rw [hstep, ih (d + 1) hall.2, List.length_cons]
      omega

/-- process_batch_result on an all-already-absent batch counts every
entry. -/
theorem process_batch_result_all_absent (es : List DelEntry)
    (h : es.all entryAbsent = true) :
    process_batch_result es = es.length := by
  have := pbr_go es 0 h
  simpa [process_batch_result] using this

/-- The slow deleter's per-path step on an already-absent target counts as
deleted. -/
theorem delStep_absent (outcome : String → Except String Unit) (df : Nat × Nat)
    (p : String) (hp : pathAbsent (outcome p) = true) :
    delStep outcome df p = (df.1 + 1, df.2) := by
  unfold delStep
  cases ho : outcome p with
  | ok u => rfl
  | error e =>
    rw [ho] at hp
    have hnf : isNotFoundIn e = true := by simpa [pathAbsent] using hp
    simp [hnf]

/-- One inner batch of the slow deleter, all targets already absent: every
path counts as deleted and none as failed. -/
theorem batch_delete_inner (outcome : String → Except String Unit) :
    ∀ (l : List String) (df : Nat × Nat),
      (∀ p ∈ l, pathAbsent (outcome p) = true) →
      l.foldl (delStep outcome) df = (df.1 + l.length, df.2) := by
  intro l
  induction l with
  | nil => intro df _; simp
  | cons p ps ih =>
    intro df h
    rw [List.foldl_cons,
      delStep_absent outcome df p (h p (List.mem_cons_self _ _)),
      ih (df.1 + 1, df.2) (fun q hq => h q (List.mem_cons_of_mem _ hq)),
      List.length_cons]
    show (df.1 + 1 + ps.length, df.2) = (df.1 + (ps.length + 1), df.2)
    rw [Nat.add_assoc, Nat.add_comm 1 ps.length]

/-- The slow deleter over any chunk list of already-absent targets counts
every path of every chunk as deleted. -/
theorem batch_delete_chunks (outcome : String → Except String Unit) :
    ∀ (L : List (List String)) (df : Nat × Nat),
      (∀ batch ∈ L, ∀ p ∈ batch, pathAbsent (outcome p) = true) →
      L.foldl (fun df batch => batch.foldl (delStep outcome) df) df
        = (df.1 + (L.map List.length).sum, df.2) := by
  intro L
  induction L with
  | nil => intro df _; simp
  | cons B Ls ih =>
    intro df h
    rw [List.foldl_cons]
    have hB : B.foldl (delStep outcome) df = (df.1 + B.length, df.2) :=
      batch_delete_inner outcome B df (h B (List.mem_cons_self _ _))
    rw [hB, ih (df.1 + B.length, df.2) (fun B' hB' => h B' (List.mem_cons_of_mem _ hB')),
      List.map_cons, List.sum_cons]
    show (df.1 + B.length + (Ls.map List.length).sum, df.2) = _
    rw [Nat.add_assoc]

/-- C4: idempotent deletion. When every target of the plan is already
absent — every per-path delete raises a not_found error, and every chunk
submission completes with one not_found failure per path — both deleters
classify every item as already deleted: the slow deleter returns
(N, 0 failed) and the fast deleter counts all N paths deleted with zero
failed. The hypotheses depend only on the absence of the targets, which
deletion preserves, so the run can be repeated arbitrarily often with the
same outcome. -/
theorem C4_idempotent_deletion (outcome : String → Except String Unit)
    (submit : Nat → List String → SubmitRes) (paths : List String) (bs : Nat)
    (hbs : 0 < bs)
    (hout : ∀ p ∈ paths, pathAbsent (outcome p) = true)
    (hsub : ∀ j, j < (paths.length + bs - 1) / bs →
      chunkAllAbsent (submit j ((paths.drop (j * bs)).take bs))
        ((paths.drop (j * bs)).take bs).length = true) :
    batch_delete outcome paths bs = (paths.length, 0) ∧
    (batch_delete_fast submit paths bs).deleted = paths.length ∧
    (batch_delete_fast submit paths bs).failed = 0 := by
  have hflat := chunksOf_flatten bs hbs paths.length paths le_rfl
  have hmemchunks : ∀ batch ∈ chunksOf paths bs, ∀ p ∈ batch,
      pathAbsent (outcome p) = true := by
    intro batch hB p hp
    apply hout
    rw [← hflat]
    exact List.mem_flatten.mpr ⟨batch, hB, hp⟩
  have hlensum : ((chunksOf paths bs).map List.length).sum = paths.length := by
    rw [← List.length_flatten, hflat]
  obtain ⟨_, hd, hf⟩ := fast_go submit paths bs ((paths.length + bs - 1) / bs)
    (List.range ((paths.length + bs - 1) / bs)) ⟨0, 0, []⟩
  have hb : batch_delete_fast submit paths bs
      = (List.range ((paths.length + bs - 1) / bs)).foldl
        (stepChunk submit paths bs ((paths.length + bs - 1) / bs)) ⟨0, 0, []⟩ := rfl
  have hcd : ∀ j ∈ List.range ((paths.length + bs - 1) / bs),
      chunkDeleted submit paths bs j = ((paths.drop (j * bs)).take bs).length := by
    intro j hj
    have hj' := List.mem_range.mp hj
    have hone := hsub j hj'
    cases hs : submit j ((paths.drop (j * bs)).take bs) with
    | apiError => rw [hs] at hone; exact absurd hone (by simp [chunkAllAbsent])
    | asyncFailed => rw [hs] at hone; exact absurd hone (by simp [chunkAllAbsent])
    | completed es =>
      rw [hs] at hone
      rw [show chunkAllAbsent (SubmitRes.completed es)
          ((paths.drop (j * bs)).take bs).length
          = (es.length == ((paths.drop (j * bs)).take bs).length
            && es.all entryAbsent) from rfl, Bool.and_eq_true] at hone
      have hlen := eq_of_beq hone.1
      unfold chunkDeleted
      rw [hs]
      show process_batch_result es = _
      rw [process_batch_result_all_absent es hone.2, hlen]
  have hcf : ∀ j ∈ List.range ((paths.length + bs - 1) / bs),
      chunkFailed submit paths bs j = 0 := by
    intro j hj
    have hj' := List.mem_range.mp hj
    have hone := hsub j hj'
    cases hs : submit j ((paths.drop (j * bs)).take bs) with
    | apiError => rw [hs] at hone; exact absurd hone (by simp [chunkAllAbsent])
    | asyncFailed => rw [hs] at hone; exact absurd hone (by simp [chunkAllAbsent])
    | completed es => unfold chunkFailed; rw [hs]
  refine ⟨?_, ?_, ?_⟩
  · show (chunksOf paths bs).foldl
      (fun df batch => batch.foldl (delStep outcome) df) (0, 0) = _
    rw [batch_delete_chunks outcome (chunksOf paths bs) (0, 0) hmemchunks, hlensum]
    show ((0 : Nat) + paths.length, (0 : Nat)) = _
    rw [Nat.zero_add]
  · rw [hb, hd, List.map_congr_left hcd]
    show (0 : Nat) + _ = _
    rw [Nat.zero_add]
    have : (List.range ((paths.length + bs - 1) / bs)).map
        (fun j => ((paths.drop (j * bs)).take bs).length)
        = (chunksOf paths bs).map List.length := by
      rw [show chunksOf paths bs = (List.range ((paths.length + bs - 1) / bs)).map
        (fun j => (paths.drop (j * bs)).take bs) from rfl, List.map_map]
      rfl
    rw [this, hlensum]
  · rw [hb, hf, List.map_congr_left hcf]
    simp

/-- C4 witness: a three-path plan, all targets already deleted, batch size
two — both deleters report three deleted and zero failed. -/
theorem C4_idempotent_deletion_witness :
    ((0 : Nat) < 2 ∧
      (∀ p ∈ (["/a", "/b", "/c"] : List String),
        pathAbsent ((fun _ => (Except.error "path/not_found/." : Except String Unit)) p) = true) ∧
      (∀ j, j < ((["/a", "/b", "/c"] : List String).length + 2 - 1) / 2 →
        chunkAllAbsent
          ((fun _ batch => SubmitRes.completed
            (batch.map (fun _ => DelEntry.failure "path_lookup/not_found"))) j
            (((["/a", "/b", "/c"] : List String).drop (j * 2)).take 2))
          (((["/a", "/b", "/c"] : List String).drop (j * 2)).take 2).length = true)) ∧
    (batch_delete (fun _ => (Except.error "path/not_found/." : Except String Unit))
        ["/a", "/b", "/c"] 2 = (3, 0) ∧
      (batch_delete_fast
        (fun _ batch => SubmitRes.completed
          (batch.map (fun _ => DelEntry.failure "path_lookup/not_found")))
        ["/a", "/b", "/c"] 2).deleted = 3 ∧
      (batch_delete_fast
        (fun _ batch => SubmitRes.completed
          (batch.map (fun _ => DelEntry.failure "path_lookup/not_found")))
        ["/a", "/b", "/c"] 2).failed = 0) :=
  ⟨⟨by decide, by decide, by decide⟩,
    C4_idempotent_deletion
      (fun _ => (Except.error "path/not_found/." : Except String Unit))
      (fun _ batch => SubmitRes.completed
        (batch.map (fun _ => DelEntry.failure "path_lookup/not_found")))
      ["/a", "/b", "/c"] 2 (by decide) (by decide) (by decide)⟩

end LaptopTools
